import Mathlib

/-!
Verification of the ML4MIKC core: the interaction-consensus engine and the
attribute shard store of `src/entities/ppi.py`.

Conventions of the embedding:
* Raw evidence values (`PPI.interaction` elements) are modelled by `RawVal`:
  a numeric value (Python ints/floats, embedded in `ℚ`), the sentinel string
  `'NC'`, the discarded sentinels `'AUTO'`, `'ND'`, `'NLW'`, and `NA`
  (covering both Python `None` and float NaN, which `interact` treats
  identically: both are discarded by the initial filter).
* Verdicts (`interact`'s `int | str` results) are `Verdict`: an integer or
  the undetermined sentinel `'?'`.
* Python exceptions are modelled with `Except String`.
* Python dicts (insertion-ordered, update-in-place) are association lists
  with `dictSet` replacing the value at the first matching key in place and
  appending fresh keys at the end, exactly like CPython dicts.
-/

namespace ML4MIKC

/-- A raw experimental evidence value as found in `PPI.interaction` lists. -/
inductive RawVal : Type
  | num (q : ℚ)
  | NC
  | AUTO
  | ND
  | NLW
  | NA
deriving DecidableEq, Repr

/-- A consensus verdict: `val 1` = positive, `val 0` = negative, `und` = `'?'`. -/
inductive Verdict : Type
  | val (z : ℤ)
  | und
deriving DecidableEq, Repr

/-- The filter `v not in (None, 'AUTO', 'ND', 'NLW') and not pd.isna(v)` of
`score_single_origin_interactions`. -/
def keepVal : RawVal → Bool
  | .AUTO => false
  | .ND => false
  | .NLW => false
  | .NA => false
  | _ => true

/-- The map `0.5 if v == 'NC' else v` (only applied after filtering, where
every remaining value is numeric or `'NC'`). -/
def toHalf : RawVal → ℚ
  | .NC => 1/2
  | .num q => q
  | _ => 0

/-- Filtered and `NC`-mapped value list, as built by the first lines of
`score_single_origin_interactions`. -/
def processedValues (vs : List RawVal) : List ℚ :=
  (vs.filter keepVal).map toHalf

/-- Python `int()` on a rational: truncation toward zero. -/
def pyInt (q : ℚ) : ℤ := Int.tdiv q.num q.den

/-- Embedding of `PPI.interact.score_single_origin_interactions` (ppi.py lines 212-255). -/
def score_single_origin_interactions (vs : List RawVal) : Except String Verdict :=
  match processedValues vs with
  | [] => .ok .und
  | [v] =>
    if v = 1/2 then .ok .und else .ok (.val (pyInt v))
  | [a, b] =>
    if a = 1 ∨ b = 1 then .ok (.val 1)
    else if a = 0 ∨ b = 0 then .ok (.val 0)
    else if a = 1/2 ∧ b = 1/2 then .ok .und
    else .error "Unexpected values"
  | values@(_ :: _ :: _ :: _) =>
    let average := values.sum / (values.length : ℚ)
    if average > 3/5 then .ok (.val 1)
    else if average < 2/5 then .ok (.val 0)
    else .ok .und

/-! ### Python dict model (insertion order, in-place update) -/

abbrev Bucket := List RawVal

abbrev Dict := List (String × Bucket)

/-- Lookup `d[k]` as an `Option`. -/
def dictGet (d : Dict) (k : String) : Option Bucket :=
  (d.find? (fun p => p.1 = k)).map Prod.snd

/-- Membership `k in d`. -/
def dictHas (d : Dict) (k : String) : Bool :=
  d.any (fun p => p.1 = k)

/-- Assignment `d[k] = v`: update in place if the key exists, else append. -/
def dictSet (d : Dict) (k : String) (v : Bucket) : Dict :=
  if dictHas d k then d.map (fun p => if p.1 = k then (k, v) else p)
  else d ++ [(k, v)]

/-- Deletion `del d[k]` (no error if absent; `interact` only deletes present keys). -/
def dictDel (d : Dict) (k : String) : Dict :=
  d.filter (fun p => ¬ p.1 = k)

/-- The dict comprehension `{origin: interaction for origin, interaction in
zip(self.origin, self.interaction)}`. -/
def buildDict (l : List (String × Bucket)) : Dict :=
  l.foldl (fun d p => dictSet d p.1 p.2) []

/-- The loop `for k in scoring_origin: origin2interactions['scoring'].extend
(origin2interactions[k]); del origin2interactions[k]`.  A duplicated
`&`-label raises `KeyError` on its second visit (the key was deleted). -/
def mergeLoop : List String → Dict → Except String Dict
  | [], d => .ok d
  | k :: rest, d =>
    match dictGet d k, dictGet d "scoring" with
    | some vs, some s => mergeLoop rest (dictDel (dictSet d "scoring" (s ++ vs)) k)
    | _, _ => .error "KeyError"

/-- The evidence buckets after the `&`-merge: dict building, synthetic
`scoring` bucket, merge loop, and empty-bucket drop (ppi.py lines 260-270). -/
def mergedBuckets (origins : List String) (inters : List Bucket) : Except String Dict :=
  let d0 := buildDict (origins.zip inters)
  let d1 := dictSet d0 "scoring" []
  match mergeLoop (origins.filter (fun o => o.contains '&')) d1 with
  | .error e => .error e
  | .ok d2 => .ok (if dictGet d2 "scoring" = some [] then dictDel d2 "scoring" else d2)

/-- First-occurrence-ordered distinct elements: `set(scored)` /
`Counter(scored).keys()`.  (CPython's `set` iteration order is not
specified; `Counter` order is first occurrence.  The order is only
observable through `max`'s tie-break, which is reached only when three or
more distinct verdicts survive, i.e. never for evidence values in the
documented domain.) -/
def pyDistinct : List Verdict → List Verdict
  | [] => []
  | x :: xs => x :: pyDistinct (xs.filter (fun v => ¬ v = x))
termination_by l => l.length
decreasing_by
  simp only [List.length_cons]
  exact Nat.lt_succ_of_le (List.length_filter_le _ _)

/-- Python `max(iterable, key=count)`: first maximum under the key, `ValueError`
on an empty iterable. -/
def pyMax (count : Verdict → ℕ) : List Verdict → Except String Verdict
  | [] => .error "ValueError"
  | x :: xs => .ok (xs.foldl (fun best v => if count best < count v then v else best) x)

/-- The tail of `interact`'s multiple-origin branch after dropping `'?'`
verdicts: `freqs = list(Counter(scored).values()); if len(set(scored)) == 1
or not is_balanced(freqs): return max(set(scored), key=scored.count) else
return '?'`. -/
def resolveDropped (scored : List Verdict) : Except String Verdict :=
  let distinct := pyDistinct scored
  let freqs := distinct.map (fun v => scored.count v)
  if distinct.length = 1 then pyMax (fun v => scored.count v) distinct
  else
    match freqs with
    | [] => .error "ValueError"
    | f :: fs =>
      if ¬ (fs.foldl max f = fs.foldl min f) then pyMax (fun v => scored.count v) distinct
      else .ok .und

/-- The multiple-origin verdict resolution on the per-bucket scores:
`if len(set(scored)) == 1: return scored[0]` then drop `'?'` and resolve. -/
def resolveMulti (scored : List Verdict) : Except String Verdict :=
  match scored with
  | [] => resolveDropped []
  | s0 :: rest =>
    if rest.all (fun v => v = s0) then .ok s0
    else resolveDropped ((s0 :: rest).filter (fun v => ¬ v = .und))

/-- The list comprehension `[score_single_origin_interactions(interactions)
for interactions in origin2interactions.values()]`: scores are computed
left to right and the first exception propagates. -/
def mapScores : Dict → Except String (List Verdict)
  | [] => .ok []
  | p :: d =>
    match score_single_origin_interactions p.2, mapScores d with
    | .ok w, .ok rest => .ok (w :: rest)
    | .error e, _ => .error e
    | _, .error e => .error e

/-- Embedding of `PPI.interact` (ppi.py lines 186-285) on the `origin` and `interaction`
attributes. -/
def interact (origins : List String) (inters : List Bucket) : Except String Verdict :=
  if origins.length = 1 then
    match inters with
    | [] => .error "IndexError"
    | vs :: _ => score_single_origin_interactions vs
  else
    match mergedBuckets origins inters with
    | .error e => .error e
    | .ok d =>
      if d.length = 1 ∧ dictHas d "scoring" then
        score_single_origin_interactions ((dictGet d "scoring").getD [])
      else
        match mapScores d with
        | .error e => .error e
        | .ok scored => resolveMulti scored

/-! ### Attribute shard store (`PPI.pickle` / `PPI._add_argument`)

Shard file names `<stem>.<attr>.<sub1>...` are modelled as their dot-split
segment lists `[stem, attr, sub1, ...]` (Python joins with `'.'` and
`_add_argument` splits on `'.'` again).  `pickle` writes with a `./` prefix
and `_add_argument` reads from the `path.PPI` directory; the store is
modelled as that single directory (a map from segment list to object), the
situation in which the round-trip of the spec is meaningful at all. -/

/-- A Python object held by an entity attribute: `None`, a non-dict leaf
(opaque payload, embedded as `ℤ`), or a dict. -/
inductive Obj : Type
  | null : Obj
  | atom (z : ℤ) : Obj
  | dict (entries : List (String × Obj)) : Obj
deriving Repr

/-- Shard path: the dot-separated components of the shard file name. -/
abbrev ShardPath := List String

/-- The shard directory: file name segments to pickled object. -/
def Store : Type := ShardPath → Option Obj

/-- The store with no shard files. -/
def emptyStore : Store := fun _ => Option.none

/-- Embedding of `utils.pickle(data, path)`: (over)write one shard file. -/
def writeStore (st : Store) (p : ShardPath) (v : Obj) : Store :=
  fun q => if q = p then some v else st q

/-- The `preserved_dicts` list in `PPI.pickle.save_data`. -/
def preservedDicts : List String := ["interface_features"]

mutual

/-- Embedding of `PPI.pickle.save_data(key, data, filepath)` (ppi.py lines 293-300).
`k` is the enclosing loop variable of `PPI.pickle` — the top-level
attribute name — which the dict test reads at every recursion depth. -/
def saveData (k : String) (data : Obj) (filepath : ShardPath) (st : Store) : Store :=
  match data with
  | .dict entries =>
    if k ∈ preservedDicts then writeStore st filepath (.dict entries)
    else saveEntries k entries filepath st
  | .null => st
  | .atom z => writeStore st filepath (.atom z)

/-- The `for key, value in data.items(): save_data('', value, f'...{key}')`
loop, threading the store left to right. -/
def saveEntries (k : String) (entries : List (String × Obj)) (filepath : ShardPath)
    (st : Store) : Store :=
  match entries with
  | [] => st
  | (key, v) :: rest => saveEntries k rest filepath (saveData k v (filepath ++ [key]) st)

end

/-- An in-memory entity: its `__dict__`, an insertion-ordered attribute map. -/
abbrev Entity := List (String × Obj)

/-- Attribute read `getattr(self, arg, None)`. -/
def entGet (e : Entity) (k : String) : Option Obj :=
  (e.find? (fun p => p.1 = k)).map Prod.snd

/-- Attribute write `setattr(self, arg, v)`: update in place or append, like a Python
instance `__dict__`. -/
def entSet (e : Entity) (k : String) (v : Obj) : Entity :=
  if e.any (fun p => p.1 = k) then e.map (fun p => if p.1 = k then (k, v) else p)
  else e ++ [(k, v)]

/-- Embedding of `PPI.pickle` (ppi.py lines 287-306): write every set attribute of the
entity, decomposing dict values into dotted shards. -/
def pickleEntity (stem : String) (attrs : Entity) (st : Store) : Store :=
  attrs.foldl (fun st p => saveData p.1 p.2 [stem, p.1] st) st

/-- The nested-dictionary skeleton built by `_add_argument`'s loop over
`subargs`: `{s1: {s2: ... {sn: obj}}}` (for `subargs = []` the object
itself stands in, matching the `if subargs` branch split). -/
def buildNested : List String → Obj → Obj
  | [], obj => obj
  | s :: rest, obj => Obj.dict [(s, buildNested rest obj)]

/-- Python `dict.update`: right-biased merge, existing keys keep their
position, new keys are appended. -/
def dictUpdate (old new : List (String × Obj)) : List (String × Obj) :=
  new.foldl (fun acc p =>
    if acc.any (fun q => q.1 = p.1) then acc.map (fun q => if q.1 = p.1 then (p.1, p.2) else q)
    else acc ++ [p]) old

/-- Embedding of `PPI._add_argument(arg)` (ppi.py lines 44-86) on the dot-split request
`arg :: subargs`: unpickle the shard (absent shard yields `None`), build
the nested dict, and set or merge it into the entity.  `TypeError` and
`AttributeError` paths (merging into or updating a non-dict) are modelled
as errors. -/
def addArgument (st : Store) (stem : String) (e : Entity) :
    List String → Except String Entity
  | [] => .error "ValueError"
  | arg :: subargs =>
    let obj : Obj := (st (stem :: arg :: subargs)).getD .null
    match entGet e arg with
    | Option.none =>
      match subargs with
      | [] => .ok (entSet e arg obj)
      | s :: rest => .ok (entSet e arg (Obj.dict [(s, buildNested rest obj)]))
    | some ex =>
      match subargs with
      | [] => .ok (entSet e arg ex)
      | s :: rest =>
        match ex with
        | .dict exEntries =>
          if exEntries.any (fun q => q.1 = s) then
            match (exEntries.find? (fun q => q.1 = s)).map Prod.snd, buildNested rest obj with
            | some (.dict dOld), .dict dNew =>
              .ok (entSet e arg (.dict (exEntries.map (fun q =>
                if q.1 = s then (s, Obj.dict (dictUpdate dOld dNew)) else q))))
            | _, _ => .error "TypeError"
          else
            .ok (entSet e arg (.dict (exEntries ++ [(s, buildNested rest obj)])))
        | _ => .error "TypeError"

/-- Embedding of `PPI.__init__(p1, p2, *args)` attribute hydration: apply
`_add_argument` for each requested dotted name in order, starting from an
entity with no (modelled) attributes. -/
def readEntity (st : Store) (stem : String) (argsList : List (List String)) :
    Except String Entity :=
  argsList.foldlM (fun e segs => addArgument st stem e segs) []

/-- Test `isinstance(v, dict)`. -/
def Obj.isDict : Obj → Bool
  | .dict _ => true
  | _ => false

/-- Test `v is None`. -/
def Obj.isNull : Obj → Bool
  | .null => true
  | _ => false

/-- The documented domain of raw evidence values (spec §3: "integers 0/1,
or sentinel strings, or missing"). -/
def evidenceVal (x : RawVal) : Prop :=
  x = .num 0 ∨ x = .num 1 ∨ x = .NC ∨ x = .AUTO ∨ x = .ND ∨ x = .NLW ∨ x = .NA

/-- Replace the value stored under key `k` by `[]` (a mask used to compare
dicts that may differ only in that value). -/
def maskVal (k : String) (d : Dict) : Dict :=
  d.map (fun p => if p.1 = k then (k, ([] : Bucket)) else p)

/-- The cross-origin resolution rule exactly as claim C1 words it: if all
per-bucket verdicts are identical return that verdict; otherwise drop every
`'?'`, and if all surviving verdict frequencies are equal (in particular
when zero or one distinct verdicts survive) return `'?'`, else return the
verdict with strictly highest frequency (`Option.none` when the claim's
case split does not apply). -/
def crossOriginClaim (scored : List Verdict) : Option Verdict :=
  match scored with
  | [] => Option.none
  | v0 :: rest =>
    if rest.all (fun v => v = v0) then some v0
    else
      let s := (v0 :: rest).filter (fun v => ¬ v = Verdict.und)
      let distinct := pyDistinct s
      if distinct.all (fun a => distinct.all (fun b => s.count a = s.count b)) then
        some .und
      else
        match distinct.find?
            (fun a => distinct.all (fun b => b = a ∨ s.count b < s.count a)) with
        | some a => some a
        | Option.none => Option.none

/-- The cross-origin resolution rule of claim C1 as amended: the
"all surviving frequencies equal" case is entered only when at least two
distinct verdicts survive; a lone surviving distinct verdict is returned
(it trivially has the strictly highest frequency). -/
def crossOriginSpec (scored : List Verdict) : Option Verdict :=
  match scored with
  | [] => Option.none
  | v0 :: rest =>
    if rest.all (fun v => v = v0) then some v0
    else
      match (v0 :: rest).filter (fun v => ¬ v = Verdict.und) with
      | [] => some .und
      | t :: ts =>
        if ts.all (fun v => v = t) then some t
        else if (t :: ts).count (Verdict.val 1) = (t :: ts).count (Verdict.val 0) then
          some .und
        else if (t :: ts).count (Verdict.val 0) < (t :: ts).count (Verdict.val 1) then
          some (.val 1)
        else some (.val 0)

/-- The raw values pooled into the synthetic `scoring` bucket: the
concatenation, in origin order, of the `&`-marked origins' value lists. -/
def pooledScoring (origins : List String) (inters : List Bucket) : Bucket :=
  (((origins.zip inters).filter (fun p => p.1.contains '&')).map Prod.snd).flatten

/-! ### Entity identity -/

/-- Embedding of `PPI.__hash__` (ppi.py lines 136-145): the two Protein keys joined by
`'='` in construction order.  A Protein key (`Protein.__hash__`) is an md5
hex digest of the sequence, hence always a 32-character string. -/
def ppiHash (hA hB : String) : String := hA ++ "=" ++ hB

/-! ### Theorems -/

/-! #### Dict toolbox -/

theorem dictSet_cons_ne (p : String × Bucket) (d : Dict) (k : String) (v : Bucket)
    (h : ¬ p.1 = k) : dictSet (p :: d) k v = p :: dictSet d k v := by
  unfold dictSet dictHas
  by_cases hd : d.any (fun q => q.1 = k) = true
  · simp [hd, h]
  · simp [hd, h]

theorem dictSet_cons_eq (p : String × Bucket) (d : Dict) (k : String) (v : Bucket)
    (h : p.1 = k) :
    dictSet (p :: d) k v =
      (k, v) :: d.map (fun q => if q.1 = k then (k, v) else q) := by
  unfold dictSet dictHas
  simp [h]

theorem dictGet_nil (k : String) : dictGet [] k = Option.none := rfl

theorem dictGet_cons (p : String × Bucket) (d : Dict) (k : String) :
    dictGet (p :: d) k = if p.1 = k then some p.2 else dictGet d k := by
  unfold dictGet
  by_cases h : p.1 = k <;> simp [List.find?_cons, h]

theorem dictGet_mask (d : Dict) (k : String) (v : Bucket) (k' : String)
    (h : ¬ k' = k) :
    dictGet (d.map (fun q => if q.1 = k then (k, v) else q)) k' = dictGet d k' := by
  induction d with
  | nil => rfl
  | cons q d ihq =>
    by_cases hq : q.1 = k
    · simp only [List.map_cons, if_pos hq]
      rw [dictGet_cons, dictGet_cons, ihq, if_neg (fun hk => h hk.symm), if_neg]
      rw [hq]
      exact fun hk => h hk.symm
    · simp only [List.map_cons, if_neg hq]
      rw [dictGet_cons, dictGet_cons, ihq]

theorem dictGet_set_self (d : Dict) (k : String) (v : Bucket) :
    dictGet (dictSet d k v) k = some v := by
  induction d with
  | nil => simp [dictSet, dictHas, dictGet]
  | cons p d ih =>
    by_cases h : p.1 = k
    · rw [dictSet_cons_eq p d k v h, dictGet_cons]
      simp
    · rw [dictSet_cons_ne p d k v h, dictGet_cons, if_neg h, ih]

theorem dictGet_set_ne (d : Dict) (k : String) (v : Bucket) (k' : String)
    (h : ¬ k' = k) : dictGet (dictSet d k v) k' = dictGet d k' := by
  induction d with
  | nil =>
    unfold dictSet dictHas
    simp only [List.any_nil, Bool.false_eq_true, if_false, List.nil_append]
    rw [dictGet_cons, if_neg (fun hk => h hk.symm)]
  | cons p d ih =>
    by_cases hp : p.1 = k
    · rw [dictSet_cons_eq p d k v hp, dictGet_cons,
        dictGet_mask d k v k' h, dictGet_cons, if_neg (fun hk => h hk.symm),
        if_neg]
      rw [hp]
      exact fun hk => h hk.symm
    · rw [dictSet_cons_ne p d k v hp, dictGet_cons, dictGet_cons, ih]

theorem dictDel_cons (p : String × Bucket) (d : Dict) (k : String) :
    dictDel (p :: d) k = if p.1 = k then dictDel d k else p :: dictDel d k := by
  unfold dictDel
  by_cases h : p.1 = k <;> simp [List.filter_cons, h]

theorem dictGet_del_self (d : Dict) (k : String) :
    dictGet (dictDel d k) k = Option.none := by
  induction d with
  | nil => rfl
  | cons p d ih =>
    rw [dictDel_cons]
    by_cases h : p.1 = k
    · rw [if_pos h]; exact ih
    · rw [if_neg h, dictGet_cons, if_neg h]; exact ih

theorem dictGet_del_ne (d : Dict) (k k' : String) (h : ¬ k' = k) :
    dictGet (dictDel d k) k' = dictGet d k' := by
  induction d with
  | nil => rfl
  | cons p d ih =>
    rw [dictDel_cons]
    by_cases hp : p.1 = k
    · rw [if_pos hp, dictGet_cons, if_neg, ih]
      rw [hp]
      exact fun hk => h hk.symm
    · rw [if_neg hp, dictGet_cons, dictGet_cons, ih]

theorem dictGet_none_iff (d : Dict) (k : String) :
    dictGet d k = Option.none ↔ dictHas d k = false := by
  induction d with
  | nil => simp [dictGet, dictHas]
  | cons p d ih =>
    rw [dictGet_cons]
    by_cases h : p.1 = k
    · simp only [if_pos h]
      constructor
      · intro hsome; cases hsome
      · intro hfalse
        exfalso
        unfold dictHas at hfalse
        simp [h] at hfalse
    · simp only [if_neg h]
      rw [ih]
      unfold dictHas
      simp [h]

theorem buildDict_foldl_get (l : List (String × Bucket)) (d : Dict) (k : String) :
    dictGet (l.foldl (fun d p => dictSet d p.1 p.2) d) k =
      match l.reverse.find? (fun p => p.1 = k) with
      | some p => some p.2
      | Option.none => dictGet d k := by
  induction l generalizing d with
  | nil => rfl
  | cons p l ih =>
    rw [List.foldl_cons, ih, List.reverse_cons, List.find?_append]
    cases hf : l.reverse.find? (fun p => p.1 = k) with
    | some q => rfl
    | none =>
      have hor : ∀ y : Option (String × Bucket), Option.or Option.none y = y :=
        fun y => by cases y <;> rfl
      rw [hor]
      by_cases h : p.1 = k
      · have hone : List.find? (fun p => p.1 = k) [p] = some p := by
          simp [List.find?, h]
        rw [hone]
        show dictGet (dictSet d p.1 p.2) k = some p.2
        rw [h]
        exact dictGet_set_self d k p.2
      · have hnone : List.find? (fun p => p.1 = k) [p] = Option.none := by
          simp [List.find?, h]
        rw [hnone]
        exact dictGet_set_ne d p.1 p.2 k (fun hk => h hk.symm)

theorem buildDict_get (l : List (String × Bucket)) (k : String) :
    dictGet (buildDict l) k =
      (l.reverse.find? (fun p => p.1 = k)).map Prod.snd := by
  unfold buildDict
  rw [buildDict_foldl_get]
  cases hf : l.reverse.find? (fun p => p.1 = k) <;> simp [dictGet]

theorem find?_reverse_unique (l : List (String × Bucket)) (k : String) (b : Bucket)
    (hmem : (k, b) ∈ l) (hu : l.countP (fun p => p.1 = k) ≤ 1) :
    l.reverse.find? (fun p => p.1 = k) = some (k, b) := by
  induction l with
  | nil => cases hmem
  | cons p l ih =>
    rw [List.reverse_cons, List.find?_append]
    rw [List.countP_cons] at hu
    rcases List.mem_cons.mp hmem with heq | hmem'
    · subst heq
      have hone : l.countP (fun p => p.1 = k) + 1 ≤ 1 := by simpa using hu
      have hcount : l.countP (fun p => p.1 = k) = 0 := by omega
      have hnone : l.reverse.find? (fun p => p.1 = k) = Option.none := by
        rw [List.find?_eq_none]
        intro a ha
        have := List.countP_eq_zero.mp hcount a (List.mem_reverse.mp ha)
        simpa using this
      simp [hnone, Option.or, List.find?]
    · have h1 : 0 < l.countP (fun p => p.1 = k) :=
        List.countP_pos_iff.mpr ⟨(k, b), hmem', by simp⟩
      have hp : ¬ p.1 = k := by
        intro hpk
        have : l.countP (fun p => p.1 = k) + 1 ≤ 1 := by simpa [hpk] using hu
        omega
      have hu' : l.countP (fun p => p.1 = k) ≤ 1 := by simpa [hp] using hu
      rw [ih hmem' hu']
      simp [Option.or]

theorem mergeLoop_spec (ks : List String) (d : Dict)
    (hnd : ks.Nodup) (hns : ∀ k ∈ ks, ¬ k = "scoring")
    (hin : ∀ k ∈ ks, ¬ dictGet d k = Option.none)
    (acc : Bucket) (hacc : dictGet d "scoring" = some acc) :
    ∃ d', mergeLoop ks d = .ok d' ∧
      dictGet d' "scoring" =
        some (acc ++ (ks.map (fun k => (dictGet d k).getD [])).flatten) ∧
      (∀ k', k' ∉ ks → ¬ k' = "scoring" → dictGet d' k' = dictGet d k') ∧
      (∀ k ∈ ks, dictGet d' k = Option.none) := by
  induction ks generalizing d acc with
  | nil =>
    exact ⟨d, rfl, by simpa using hacc, fun k' _ _ => rfl,
      fun k h => absurd h (List.not_mem_nil k)⟩
  | cons k ks ih =>
    obtain ⟨vs, hvs⟩ : ∃ vs, dictGet d k = some vs := by
      cases h : dictGet d k with
      | none => exact absurd h (hin k (List.mem_cons_self k ks))
      | some vs => exact ⟨vs, rfl⟩
    have hks : k ∉ ks := (List.nodup_cons.mp hnd).1
    have hnd' : ks.Nodup := (List.nodup_cons.mp hnd).2
    have hkns : ¬ k = "scoring" := hns k (List.mem_cons_self k ks)
    set d₁ := dictDel (dictSet d "scoring" (acc ++ vs)) k with hd₁
    have hstep : mergeLoop (k :: ks) d = mergeLoop ks d₁ := by
      rw [hd₁]
      show (match dictGet d k, dictGet d "scoring" with
        | some vs, some s => mergeLoop ks (dictDel (dictSet d "scoring" (s ++ vs)) k)
        | _, _ => Except.error "KeyError") = _
      rw [hvs, hacc]
    have hget₁ : ∀ k'', ¬ k'' = k → ¬ k'' = "scoring" →
        dictGet d₁ k'' = dictGet d k'' := by
      intro k'' h1 h2
      rw [hd₁, dictGet_del_ne _ _ _ h1, dictGet_set_ne _ _ _ _ h2]
    have hsc₁ : dictGet d₁ "scoring" = some (acc ++ vs) := by
      rw [hd₁, dictGet_del_ne _ _ _ (fun h => hkns h.symm), dictGet_set_self]
    have hin' : ∀ k' ∈ ks, ¬ dictGet d₁ k' = Option.none := by
      intro k' hk'
      rw [hget₁ k' (fun he => hks (he ▸ hk'))
        (hns k' (List.mem_cons_of_mem _ hk'))]
      exact hin k' (List.mem_cons_of_mem _ hk')
    obtain ⟨d', hml, hsc', hother', hdel'⟩ :=
      ih d₁ hnd' (fun k₀ hk₀ => hns k₀ (List.mem_cons_of_mem _ hk₀)) hin'
        (acc ++ vs) hsc₁
    refine ⟨d', by rw [hstep]; exact hml, ?_, ?_, ?_⟩
    · rw [hsc']
      congr 1
      have hmapeq : ks.map (fun k' => (dictGet d₁ k').getD []) =
          ks.map (fun k' => (dictGet d k').getD []) := by
        apply List.map_congr_left
        intro k' hk'
        rw [hget₁ k' (fun he => hks (he ▸ hk'))
          (hns k' (List.mem_cons_of_mem _ hk'))]
      rw [hmapeq, List.map_cons, List.flatten_cons, hvs]
      show acc ++ vs ++ _ = acc ++ ((some vs).getD [] ++ _)
      simp [List.append_assoc]
    · intro k' hnotin hnots
      have h1 : k' ∉ ks := fun h => hnotin (List.mem_cons_of_mem _ h)
      have h2 : ¬ k' = k := fun he => hnotin (by rw [he]; exact List.mem_cons_self k ks)
      rw [hother' k' h1 hnots, hget₁ k' h2 hnots]
    · intro k₀ hk₀
      rcases List.mem_cons.mp hk₀ with rfl | hk₀'
      · rw [hother' k₀ hks hkns, hd₁, dictGet_del_self]
      · exact hdel' k₀ hk₀'

/-! #### Scoring domain lemmas -/

theorem processedValues_domain (vs : List RawVal)
    (h : ∀ x ∈ vs, evidenceVal x) :
    ∀ q ∈ processedValues vs, q = 0 ∨ q = 1/2 ∨ q = 1 := by
  intro q hq
  unfold processedValues at hq
  obtain ⟨x, hx, hxq⟩ := List.mem_map.mp hq
  have hxv : x ∈ vs := List.mem_of_mem_filter hx
  have hkeep : keepVal x = true := by simpa using List.of_mem_filter hx
  rcases h x hxv with h' | h' | h' | h' | h' | h' | h' <;> subst h'
  · exact Or.inl hxq.symm
  · exact Or.inr (Or.inr hxq.symm)
  · exact Or.inr (Or.inl hxq.symm)
  · exact Bool.noConfusion hkeep
  · exact Bool.noConfusion hkeep
  · exact Bool.noConfusion hkeep
  · exact Bool.noConfusion hkeep

theorem score_domain (vs : List RawVal)
    (h : ∀ q ∈ processedValues vs, q = 0 ∨ q = 1/2 ∨ q = 1) :
    ∃ w, score_single_origin_interactions vs = .ok w ∧
      (w = .val 0 ∨ w = .val 1 ∨ w = .und) := by
  have hp0 : pyInt 0 = 0 := by with_unfolding_all rfl
  have hp1 : pyInt 1 = 1 := by with_unfolding_all rfl
  unfold score_single_origin_interactions
  cases hp : processedValues vs with
  | nil => exact ⟨.und, rfl, Or.inr (Or.inr rfl)⟩
  | cons a t =>
    cases t with
    | nil =>
      dsimp only
      rcases h a (by rw [hp]; exact List.mem_cons_self _ _) with h' | h' | h' <;>
        subst h'
      · rw [if_neg (by norm_num)]
        exact ⟨.val (pyInt 0), rfl, Or.inl (by rw [hp0])⟩
      · rw [if_pos rfl]
        exact ⟨.und, rfl, Or.inr (Or.inr rfl)⟩
      · rw [if_neg (by norm_num)]
        exact ⟨.val (pyInt 1), rfl, Or.inr (Or.inl (by rw [hp1]))⟩
    | cons b t2 =>
      cases t2 with
      | nil =>
        dsimp only
        have ha := h a (by rw [hp]; simp)
        have hb := h b (by rw [hp]; simp)
        by_cases h1 : a = 1 ∨ b = 1
        · rw [if_pos h1]
          exact ⟨.val 1, rfl, Or.inr (Or.inl rfl)⟩
        · rw [if_neg h1]
          by_cases h0 : a = 0 ∨ b = 0
          · rw [if_pos h0]
            exact ⟨.val 0, rfl, Or.inl rfl⟩
          · rw [if_neg h0]
            have hu : a = 1/2 ∧ b = 1/2 := by
              constructor
              · rcases ha with h' | h' | h'
                · exact absurd (Or.inl h') h0
                · exact h'
                · exact absurd (Or.inl h') h1
              · rcases hb with h' | h' | h'
                · exact absurd (Or.inr h') h0
                · exact h'
                · exact absurd (Or.inr h') h1
            rw [if_pos hu]
            exact ⟨.und, rfl, Or.inr (Or.inr rfl)⟩
      | cons c t3 =>
        dsimp only
        split_ifs with hg hl
        · exact ⟨.val 1, rfl, Or.inr (Or.inl rfl)⟩
        · exact ⟨.val 0, rfl, Or.inl rfl⟩
        · exact ⟨.und, rfl, Or.inr (Or.inr rfl)⟩

theorem mapScores_ok_forall (d : Dict) (scored : List Verdict)
    (hs : mapScores d = .ok scored) :
    ∀ w ∈ scored, ∃ p ∈ d, score_single_origin_interactions p.2 = .ok w := by
  induction d generalizing scored with
  | nil =>
    obtain rfl : ([] : List Verdict) = scored := Except.ok.inj hs
    intro w hw
    cases hw
  | cons p d ih =>
    unfold mapScores at hs
    cases hfp : score_single_origin_interactions p.2 with
    | error e =>
      rw [hfp] at hs
      cases hrest : mapScores d with
      | error e2 => rw [hrest] at hs; exact Except.noConfusion hs
      | ok rest => rw [hrest] at hs; exact Except.noConfusion hs
    | ok w₀ =>
      rw [hfp] at hs
      cases hrest : mapScores d with
      | error e => rw [hrest] at hs; exact Except.noConfusion hs
      | ok rest =>
        rw [hrest] at hs
        obtain rfl : w₀ :: rest = scored := Except.ok.inj hs
        intro w hw
        rcases List.mem_cons.mp hw with rfl | hw'
        · exact ⟨p, List.mem_cons_self _ _, hfp⟩
        · obtain ⟨q, hq, hqw⟩ := ih rest hrest w hw'
          exact ⟨q, List.mem_cons_of_mem _ hq, hqw⟩

theorem pyDistinct_all_eq (l : List Verdict) (u : Verdict)
    (hne : l ≠ []) (hall : ∀ x ∈ l, x = u) : pyDistinct l = [u] := by
  cases l with
  | nil => cases hne rfl
  | cons x xs =>
    have hx : x = u := hall x (List.mem_cons_self _ _)
    subst hx
    rw [pyDistinct]
    have hf : xs.filter (fun v => ¬ v = x) = [] := by
      rw [List.filter_eq_nil_iff]
      intro a ha
      simp [hall a (List.mem_cons_of_mem _ ha)]
    rw [hf]
    simp [pyDistinct]

theorem resolveMulti_eq_spec (scored : List Verdict)
    (hdom : ∀ x ∈ scored, x = .val 0 ∨ x = .val 1 ∨ x = .und)
    (v : Verdict) (hv : crossOriginSpec scored = some v) :
    resolveMulti scored = .ok v := by
  cases scored with
  | nil => exact Option.noConfusion hv
  | cons s0 rest =>
    unfold crossOriginSpec at hv
    unfold resolveMulti
    dsimp only at hv ⊢
    by_cases hall : rest.all (fun v => v = s0)
    · rw [if_pos hall] at hv ⊢
      exact congrArg Except.ok (Option.some.inj hv)
    · rw [if_neg hall] at hv ⊢
      cases hs : (s0 :: rest).filter (fun v => ¬ v = Verdict.und) with
      | nil =>
        exfalso
        have hallund : ∀ x ∈ s0 :: rest, x = Verdict.und := by
          intro x hx
          have := List.filter_eq_nil_iff.mp hs x hx
          simpa using this
        apply hall
        rw [List.all_eq_true]
        intro x hx
        have h1 := hallund x (List.mem_cons_of_mem _ hx)
        have h2 := hallund s0 (List.mem_cons_self _ _)
        simp [h1, h2]
      | cons t ts =>
        rw [hs] at hv
        have hdomS : ∀ x ∈ t :: ts, x = Verdict.val 0 ∨ x = Verdict.val 1 := by
          intro x hx
          rw [← hs] at hx
          have hxs : x ∈ s0 :: rest := List.mem_of_mem_filter hx
          have hxnu : ¬ x = Verdict.und := by simpa using List.of_mem_filter hx
          rcases hdom x hxs with h' | h' | h'
          · exact Or.inl h'
          · exact Or.inr h'
          · exact absurd h' hxnu
        dsimp only at hv
        by_cases htall : ts.all (fun w => w = t)
        · rw [if_pos htall] at hv
          have hd1 : pyDistinct (t :: ts) = [t] := by
            apply pyDistinct_all_eq _ t (by simp)
            intro x hx
            rcases List.mem_cons.mp hx with rfl | hx'
            · rfl
            · simpa using (List.all_eq_true.mp htall) x hx'
          unfold resolveDropped
          rw [hd1]
          rw [if_pos (by simp)]
          show Except.ok t = .ok v
          exact congrArg Except.ok (Option.some.inj hv)
        · rw [if_neg htall] at hv
          obtain ⟨u, hu, hut⟩ : ∃ u ∈ ts, ¬ u = t := by
            by_contra hcon
            push_neg at hcon
            apply htall
            rw [List.all_eq_true]
            intro x hx
            simp [hcon x hx]
          have hfilter_all : ∀ x ∈ ts.filter (fun w => ¬ w = t), x = u := by
            intro x hx
            have hxts : x ∈ ts := List.mem_of_mem_filter hx
            have hxnt : ¬ x = t := by simpa using List.of_mem_filter hx
            rcases hdomS x (List.mem_cons_of_mem _ hxts) with hx' | hx' <;>
              rcases hdomS t (List.mem_cons_self _ _) with ht' | ht' <;>
              rcases hdomS u (List.mem_cons_of_mem _ hu) with hu' | hu' <;>
              simp_all
          have hune : ts.filter (fun w => ¬ w = t) ≠ [] := by
            intro hemp
            have hmem : u ∈ ts.filter (fun w => ¬ w = t) :=
              List.mem_filter.mpr ⟨hu, by simpa using hut⟩
            rw [hemp] at hmem
            cases hmem
          have hd2 : pyDistinct (t :: ts) = [t, u] := by
            rw [pyDistinct, pyDistinct_all_eq _ u hune hfilter_all]
          unfold resolveDropped
          rw [hd2]
          rw [if_neg (by simp)]
          simp only [List.map_cons, List.map_nil]
          show (if ¬ (List.foldl max ((t :: ts).count t) [(t :: ts).count u] =
              List.foldl min ((t :: ts).count t) [(t :: ts).count u])
            then pyMax (fun w => (t :: ts).count w) [t, u]
            else .ok .und) = .ok v
          simp only [List.foldl_cons, List.foldl_nil]
          have hpm : pyMax (fun w => (t :: ts).count w) [t, u] =
              .ok (if (t :: ts).count t < (t :: ts).count u then u else t) := by
            unfold pyMax
            simp
          rw [hpm]
          rcases hdomS t (List.mem_cons_self _ _) with ht' | ht' <;>
            rcases hdomS u (List.mem_cons_of_mem _ hu) with hu' | hu'
          · exact absurd (hu'.trans ht'.symm) hut
          · -- t = Negative, u = Positive
            subst ht'; subst hu'
            set ct := (Verdict.val 0 :: ts).count (Verdict.val 0) with hctDef
            set cu := (Verdict.val 0 :: ts).count (Verdict.val 1) with hcuDef
            by_cases hcnt : cu = ct
            · rw [if_pos hcnt] at hv
              rw [if_neg (by omega)]
              exact congrArg Except.ok (Option.some.inj hv)
            · rw [if_neg hcnt] at hv
              rw [if_pos (by omega)]
              by_cases hlt : ct < cu
              · rw [if_pos hlt]
                rw [if_pos hlt] at hv
                exact congrArg Except.ok (Option.some.inj hv)
              · rw [if_neg hlt]
                rw [if_neg hlt] at hv
                exact congrArg Except.ok (Option.some.inj hv)
          · -- t = Positive, u = Negative
            subst ht'; subst hu'
            set ct := (Verdict.val 1 :: ts).count (Verdict.val 1) with hctDef
            set cu := (Verdict.val 1 :: ts).count (Verdict.val 0) with hcuDef
            by_cases hcnt : ct = cu
            · rw [if_pos hcnt] at hv
              rw [if_neg (by omega)]
              exact congrArg Except.ok (Option.some.inj hv)
            · rw [if_neg hcnt] at hv
              rw [if_pos (by omega)]
              by_cases hlt : ct < cu
              · rw [if_pos hlt]
                rw [if_neg (by omega : ¬ cu < ct)] at hv
                exact congrArg Except.ok (Option.some.inj hv)
              · rw [if_neg hlt]
                rw [if_pos (by omega : cu < ct)] at hv
                exact congrArg Except.ok (Option.some.inj hv)
          · exact absurd (hu'.trans ht'.symm) hut

/-- C1 counterexample: The claim's literal resolution rule says: after
dropping Undetermined bucket verdicts, if all surviving verdict frequencies
are equal, return `'?'`.  For `origin=["A","B","C"]`,
`interaction=[[\"NC\"],[1],[1]]` the per-bucket verdicts are
`['?', 1, 1]`; the survivors are `[1, 1]`, whose (single) frequency list
`[2]` is trivially all-equal, so the claim yields `'?'` — but `interact()`
returns 1 (the post-drop `len(set(scored)) == 1` branch fires first). -/
theorem claim_C1_counterexample :
    mergedBuckets ["A", "B", "C"] [[.NC], [.num 1], [.num 1]] =
      .ok [("A", [.NC]), ("B", [.num 1]), ("C", [.num 1])] ∧
    mapScores [("A", [.NC]), ("B", [.num 1]), ("C", [.num 1])] =
      .ok [.und, .val 1, .val 1] ∧
    crossOriginClaim [.und, .val 1, .val 1] = some .und ∧
    interact ["A", "B", "C"] [[.NC], [.num 1], [.num 1]] = .ok (.val 1) ∧
    Verdict.und ≠ Verdict.val 1 := by
  refine ⟨by with_unfolding_all rfl, by with_unfolding_all rfl,
    by with_unfolding_all rfl, by with_unfolding_all rfl, by simp⟩

/-- C1 (amended): Cross-origin resolution of the consensus engine, for a
PPI on the multiple-origin path with at least two evidence buckets after
the `&`-merge and evidence values in the documented domain: if all
per-bucket verdicts are identical, `interact()` returns that verdict;
otherwise every Undetermined verdict is dropped and (a) a single surviving
distinct verdict is returned, (b) if both Positive and Negative survive
with equal frequency the result is Undetermined, (c) else the result is
the verdict with strictly highest frequency — as computed by
`crossOriginSpec`.  (The claim's reading which returns Undetermined
whenever all surviving frequencies are equal, including a lone surviving
verdict, is refuted by the counterexample.) -/
theorem claim_C1_amended (origins : List String) (inters : List Bucket)
    (hne1 : ¬ origins.length = 1) (d : Dict)
    (hd : mergedBuckets origins inters = .ok d)
    (h2 : 2 ≤ d.length)
    (hdom : ∀ p ∈ d, ∀ x ∈ p.2, evidenceVal x)
    (scored : List Verdict)
    (hs : mapScores d = .ok scored)
    (v : Verdict) (hv : crossOriginSpec scored = some v) :
    interact origins inters = .ok v := by
  unfold interact
  rw [if_neg hne1, hd]
  show (if d.length = 1 ∧ dictHas d "scoring" then _ else _) = _
  rw [if_neg (by rintro ⟨h1, _⟩; omega), hs]
  apply resolveMulti_eq_spec scored ?_ v hv
  intro w hw
  obtain ⟨p, hp, hpw⟩ := mapScores_ok_forall d scored hs w hw
  obtain ⟨w', hw', hwd⟩ :=
    score_domain p.2 (processedValues_domain p.2 (hdom p hp))
  rw [hpw] at hw'
  obtain rfl : w = w' := Except.ok.inj hw'
  exact hwd

/-- Witness for C1 (amended) at `origin=["A","B"]`,
`interaction=[[1],[0]]`: verdicts `[1, 0]`, equal frequencies, result
`'?'`. -/
theorem claim_C1_witness :
    interact ["A", "B"] [[.num 1], [.num 0]] = .ok .und := by
  apply claim_C1_amended ["A", "B"] [[.num 1], [.num 0]] (by decide)
    [("A", [.num 1]), ("B", [.num 0])] (by with_unfolding_all rfl) (by decide)
    (by
      intro p hp x hx
      rcases List.mem_cons.mp hp with rfl | hp'
      · rcases List.mem_singleton.mp (by simpa using hx) with rfl
        simp [evidenceVal]
      · rcases List.mem_singleton.mp hp' with rfl
        rcases List.mem_singleton.mp (by simpa using hx) with rfl
        simp [evidenceVal])
    [.val 1, .val 0] (by with_unfolding_all rfl)
    .und (by with_unfolding_all rfl)

/-- C2 counterexample: The claim says every `&`-labelled origin has its
raw value list merged into the `scoring` bucket and (with only that bucket
remaining) `interact()` scores the pooled values — which for
`origin=["A&","A&"]`, `interaction=[[1],[0]]` would pool `[1, 0]` and
return 1.  The code instead builds a dict in which the duplicated label
keeps only `[0]`, and the merge loop visits the deleted key a second time:
`interact()` raises `KeyError` and returns no verdict at all. -/
theorem claim_C2_counterexample :
    interact ["A&", "A&"] [[.num 1], [.num 0]] = .error "KeyError" ∧
    ∀ v, interact ["A&", "A&"] [[.num 1], [.num 0]] ≠ .ok v := by
  have h : interact ["A&", "A&"] [[.num 1], [.num 0]] = .error "KeyError" := by
    with_unfolding_all rfl
  exact ⟨h, fun v hv => by rw [h] at hv; exact Except.noConfusion hv⟩

/-- C2 (amended): `&`-merge of combined evidence sources, for pairwise
distinct `&`-labels: every origin whose label contains `'&'` has its raw
value list merged (in origin order) into the synthetic `scoring` bucket,
the bucket is dropped if the pooled list is empty, and when exactly one
evidence bucket remains and it is the `scoring` bucket, `interact()`
returns `scoreOrigin` applied directly to the pooled raw values; in
particular `origin=["A&1","B&2"]`, `interaction=[[1],[0]]` yields 1.
(Duplicated `&`-labels instead raise `KeyError`, see the counterexample.) -/
theorem claim_C2_amended (origins : List String) (inters : List Bucket)
    (hlen : origins.length = inters.length)
    (h2 : 2 ≤ origins.length)
    (hnd : (origins.filter (fun o => o.contains '&')).Nodup) :
    ∃ d, mergedBuckets origins inters = .ok d ∧
      (¬ pooledScoring origins inters = [] →
        dictGet d "scoring" = some (pooledScoring origins inters)) ∧
      (pooledScoring origins inters = [] →
        dictGet d "scoring" = Option.none) ∧
      (d.length = 1 → dictHas d "scoring" = true →
        interact origins inters =
          score_single_origin_interactions (pooledScoring origins inters)) ∧
      interact ["A&1", "B&2"] [[.num 1], [.num 0]] = .ok (.val 1) := by
  have hle : origins.length ≤ inters.length := le_of_eq hlen
  set z := origins.zip inters with hz
  set sl := origins.filter (fun o => o.contains '&') with hsl
  set d0 := buildDict z with hd0
  set d1 := dictSet d0 "scoring" [] with hd1v
  have hcontains : ∀ k ∈ sl, k.contains '&' = true := by
    intro k hk
    rw [hsl] at hk
    simpa using (List.mem_filter.mp hk).2
  have hnsc : ∀ k ∈ sl, ¬ k = "scoring" := by
    intro k hk he
    have hc := hcontains k hk
    rw [he] at hc
    have hf : "scoring".contains '&' = false := by with_unfolding_all rfl
    rw [hf] at hc
    exact Bool.noConfusion hc
  have hmemz : ∀ k ∈ sl, ∃ b, (k, b) ∈ z := by
    intro k hk
    have hko : k ∈ origins := List.mem_of_mem_filter hk
    have hkz : k ∈ z.map Prod.fst := by
      rw [hz, List.map_fst_zip _ _ hle]
      exact hko
    obtain ⟨p, hp, hpk⟩ := List.mem_map.mp hkz
    refine ⟨p.2, ?_⟩
    rw [← hpk]
    simpa using hp
  have huniq : ∀ k ∈ sl, z.countP (fun p => p.1 = k) ≤ 1 := by
    intro k hk
    have h1 := List.nodup_iff_count_le_one.mp hnd k
    rw [List.count] at h1
    have hsl1 : sl.countP (fun x => x = k) ≤ 1 := by
      calc sl.countP (fun x => x = k) = sl.countP (fun x => x == k) :=
            List.countP_congr (fun x _ => by simp [beq_iff_eq])
        _ ≤ 1 := h1
    have hok : origins.countP (fun x => x = k) ≤ 1 := by
      have hf : sl.countP (fun x => x = k) =
          origins.countP (fun x => decide (x = k) && x.contains '&') := by
        rw [hsl, List.countP_filter]
      have hcongr : origins.countP (fun x => decide (x = k) && x.contains '&') =
          origins.countP (fun x => x = k) := by
        apply List.countP_congr
        intro x _
        by_cases hx : x = k
        · subst hx
          simp [hcontains x hk]
        · simp [hx]
      rw [hf, hcongr] at hsl1
      exact hsl1
    calc z.countP (fun p => p.1 = k)
        = (z.map Prod.fst).countP (fun x => x = k) := by
          rw [List.countP_map]
          rfl
      _ = origins.countP (fun x => x = k) := by rw [hz, List.map_fst_zip _ _ hle]
      _ ≤ 1 := hok
  have hget1 : ∀ k ∈ sl, ∀ b, (k, b) ∈ z → dictGet d1 k = some b := by
    intro k hk b hb
    rw [hd1v, dictGet_set_ne _ _ _ _ (hnsc k hk), hd0, buildDict_get,
      find?_reverse_unique z k b hb (huniq k hk)]
    rfl
  have hin1 : ∀ k ∈ sl, ¬ dictGet d1 k = Option.none := by
    intro k hk
    obtain ⟨b, hb⟩ := hmemz k hk
    rw [hget1 k hk b hb]
    simp
  have hslz : sl = (z.filter (fun p => p.1.contains '&')).map Prod.fst := by
    calc sl = (z.map Prod.fst).filter (fun o => o.contains '&') := by
          rw [hsl, hz, List.map_fst_zip _ _ hle]
      _ = (z.filter (fun p => p.1.contains '&')).map Prod.fst :=
          List.filter_map _ _
  have hpool : sl.map (fun k => (dictGet d1 k).getD []) =
      (z.filter (fun p => p.1.contains '&')).map Prod.snd := by
    rw [hslz, List.map_map]
    apply List.map_congr_left
    intro p hp
    have hpz : p ∈ z := List.mem_of_mem_filter hp
    have hpsl : p.1 ∈ sl := by
      rw [hslz]
      exact List.mem_map_of_mem _ hp
    show (dictGet d1 p.1).getD [] = p.2
    rw [hget1 p.1 hpsl p.2 (by simpa using hpz)]
    rfl
  obtain ⟨d2, hml, hsc2, hoth2, hdel2⟩ :=
    mergeLoop_spec sl d1 hnd hnsc hin1 [] (by rw [hd1v]; exact dictGet_set_self _ _ _)
  have hscval : dictGet d2 "scoring" = some (pooledScoring origins inters) := by
    rw [hsc2, hpool]
    show some ([] ++ _) = _
    rw [List.nil_append]
    rfl
  have hmb : mergedBuckets origins inters =
      .ok (if dictGet d2 "scoring" = some [] then dictDel d2 "scoring" else d2) := by
    show (match mergeLoop sl d1 with
      | .error e => (.error e : Except String Dict)
      | .ok d2 => .ok (if dictGet d2 "scoring" = some [] then dictDel d2 "scoring" else d2)) = _
    rw [hml]
  refine ⟨if dictGet d2 "scoring" = some [] then dictDel d2 "scoring" else d2,
    hmb, ?_, ?_, ?_, by with_unfolding_all rfl⟩
  · intro hne
    rw [if_neg (by rw [hscval]; simpa using hne)]
    exact hscval
  · intro he
    rw [if_pos (by rw [hscval, he])]
    exact dictGet_del_self _ _
  · intro hlen1 hhas
    by_cases hp0 : dictGet d2 "scoring" = some []
    · exfalso
      rw [if_pos hp0] at hhas
      have hnone : dictGet (dictDel d2 "scoring") "scoring" = Option.none :=
        dictGet_del_self _ _
      rw [dictGet_none_iff] at hnone
      rw [hhas] at hnone
      exact Bool.noConfusion hnone
    · rw [if_neg hp0] at hlen1 hhas
      have hne1 : ¬ origins.length = 1 := by omega
      have hstep : interact origins inters =
          score_single_origin_interactions ((dictGet d2 "scoring").getD []) := by
        unfold interact
        rw [if_neg hne1, hmb, if_neg hp0]
        show (if d2.length = 1 ∧ dictHas d2 "scoring" then _ else _) = _
        rw [if_pos ⟨hlen1, hhas⟩]
      rw [hstep, hscval]
      rfl

/-- Witness for C2 (amended) at `origin=["A&1","B&2"]`,
`interaction=[[1],[0]]`. -/
theorem claim_C2_witness :
    interact ["A&1", "B&2"] [[.num 1], [.num 0]] = .ok (.val 1) := by
  obtain ⟨d, _, _, _, _, hex⟩ :=
    claim_C2_amended ["A&1", "B&2"] [[.num 1], [.num 0]] (by decide) (by decide)
      (by
        have hf : List.filter (fun o => o.contains '&') ["A&1", "B&2"] =
            ["A&1", "B&2"] := by with_unfolding_all rfl
        rw [hf]
        decide)
  exact hex

/-! #### Mask and delete lemmas for the `scoring` shadowing claim -/

theorem keys_maskVal (k : String) (d : Dict) :
    (maskVal k d).map Prod.fst = d.map Prod.fst := by
  unfold maskVal
  rw [List.map_map]
  apply List.map_congr_left
  intro p _
  by_cases h : p.1 = k
  · simp [h]
  · simp [h]

theorem dictHas_congr (d d' : Dict) (k : String)
    (h : d.map Prod.fst = d'.map Prod.fst) : dictHas d k = dictHas d' k := by
  unfold dictHas
  have h1 : ∀ e : Dict, e.any (fun p => p.1 = k) =
      (e.map Prod.fst).any (fun x => x = k) := by
    intro e
    induction e with
    | nil => rfl
    | cons p e ih => simp [List.any_cons, ih]
  rw [h1, h1, h]

theorem maskVal_nil (k : String) : maskVal k [] = [] := rfl

theorem maskVal_id (k : String) (d : Dict) (h : dictHas d k = false) :
    maskVal k d = d := by
  unfold maskVal
  unfold dictHas at h
  rw [List.any_eq_false] at h
  have hcong : ∀ p ∈ d, (if p.1 = k then (k, ([] : Bucket)) else p) = id p := by
    intro p hp
    rw [if_neg, id]
    intro hpk
    exact (h p hp) (by simp [hpk])
  rw [List.map_congr_left hcong, List.map_id]

theorem maskVal_dictSet_ne (k a : String) (v : Bucket) (d : Dict) (h : ¬ a = k) :
    maskVal k (dictSet d a v) = dictSet (maskVal k d) a v := by
  unfold dictSet
  rw [dictHas_congr (maskVal k d) d a (keys_maskVal k d)]
  by_cases hd : dictHas d a
  · rw [if_pos hd, if_pos hd]
    unfold maskVal
    rw [List.map_map, List.map_map]
    apply List.map_congr_left
    intro p _
    show (if (if p.1 = a then (a, v) else p).1 = k then (k, ([] : Bucket))
        else (if p.1 = a then (a, v) else p)) =
      (if (if p.1 = k then (k, ([] : Bucket)) else p).1 = a then (a, v)
        else (if p.1 = k then (k, ([] : Bucket)) else p))
    by_cases hp : p.1 = a
    · have hpk : ¬ p.1 = k := by rw [hp]; exact h
      simp [hp, hpk, h]
    · by_cases hpk : p.1 = k
      · have hka : ¬ k = a := fun hk => h hk.symm
        simp [hp, hpk, hka]
      · simp [hp, hpk]
  · rw [if_neg hd, if_neg hd]
    unfold maskVal
    rw [List.map_append]
    simp [h]

theorem maskVal_dictSet_self (k : String) (v : Bucket) (d : Dict) :
    maskVal k (dictSet d k v) =
      if dictHas d k then maskVal k d else maskVal k d ++ [(k, [])] := by
  unfold dictSet
  by_cases hd : dictHas d k
  · rw [if_pos hd, if_pos hd]
    unfold maskVal
    rw [List.map_map]
    apply List.map_congr_left
    intro p _
    show (if (if p.1 = k then (k, v) else p).1 = k then (k, ([] : Bucket))
        else (if p.1 = k then (k, v) else p)) =
      (if p.1 = k then (k, ([] : Bucket)) else p)
    by_cases hp : p.1 = k
    · simp [hp]
    · simp [hp]
  · rw [if_neg hd, if_neg hd]
    unfold maskVal
    rw [List.map_append]
    simp

theorem dictSet_nil_val (k : String) (d : Dict) :
    dictSet d k [] =
      if dictHas d k then maskVal k d else maskVal k d ++ [(k, [])] := by
  by_cases hd : dictHas d k
  · rw [if_pos hd]
    unfold dictSet
    rw [if_pos hd]
    rfl
  · rw [if_neg hd]
    unfold dictSet
    rw [if_neg hd, maskVal_id k d (by simpa using hd)]

theorem buildDict_fold_mask (z : List (String × Bucket)) :
    ∀ (z' : List (String × Bucket)) (d d' : Dict),
    maskVal "scoring" z = maskVal "scoring" z' →
    maskVal "scoring" d = maskVal "scoring" d' →
    maskVal "scoring" (z.foldl (fun d p => dictSet d p.1 p.2) d) =
      maskVal "scoring" (z'.foldl (fun d p => dictSet d p.1 p.2) d') := by
  induction z with
  | nil =>
    intro z' d d' hz hd
    have hz' : z' = [] := by
      unfold maskVal at hz
      exact List.map_eq_nil_iff.mp hz.symm
    subst hz'
    simpa using hd
  | cons p zr ih =>
    intro z' d d' hz hd
    cases z' with
    | nil =>
      exfalso
      unfold maskVal at hz
      rw [List.map_nil, List.map_cons] at hz
      exact List.noConfusion hz
    | cons p' zr' =>
      unfold maskVal at hz
      rw [List.map_cons, List.map_cons] at hz
      obtain ⟨hph, hzt⟩ := List.cons.inj hz
      rw [List.foldl_cons, List.foldl_cons]
      apply ih zr' _ _ hzt
      have hkeys : d.map Prod.fst = d'.map Prod.fst := by
        have := congrArg (List.map Prod.fst) hd
        rwa [keys_maskVal, keys_maskVal] at this
      by_cases hsc : p.1 = "scoring"
      · have hsc' : p'.1 = "scoring" := by
          by_contra hne
          rw [if_pos hsc, if_neg hne] at hph
          exact hne (by rw [← hph])
        have hstep : ∀ (e : Dict) (q : String × Bucket), q.1 = "scoring" →
            maskVal "scoring" (dictSet e q.1 q.2) =
              (if dictHas e "scoring" then maskVal "scoring" e
               else maskVal "scoring" e ++ [("scoring", [])]) := by
          intro e q hq
          rw [show dictSet e q.1 q.2 = dictSet e "scoring" q.2 from by rw [hq]]
          exact maskVal_dictSet_self "scoring" q.2 e
        rw [hstep d p hsc, hstep d' p' hsc',
          dictHas_congr d d' "scoring" hkeys, hd]
      · have hpp : p = p' := by
          rw [if_neg hsc] at hph
          by_cases hsc' : p'.1 = "scoring"
          · rw [if_pos hsc'] at hph
            exact absurd (by rw [hph]) hsc
          · rw [if_neg hsc'] at hph
            exact hph
        rw [← hpp, maskVal_dictSet_ne _ _ _ _ hsc, maskVal_dictSet_ne _ _ _ _ hsc,
          hd]

theorem dictHas_del_ne (d : Dict) (a k : String) (h : ¬ a = k) :
    dictHas (dictDel d k) a = dictHas d a := by
  have h1 := dictGet_del_ne d k a h
  cases hb : dictHas d a with
  | false =>
    have h2 := (dictGet_none_iff d a).mpr hb
    rw [h2] at h1
    exact (dictGet_none_iff _ a).mp h1
  | true =>
    cases hb' : dictHas (dictDel d k) a with
    | true => rfl
    | false =>
      exfalso
      have h2 := (dictGet_none_iff (dictDel d k) a).mpr hb'
      rw [h2] at h1
      have h3 := (dictGet_none_iff d a).mp h1.symm
      rw [hb] at h3
      exact Bool.noConfusion h3

theorem dictDel_dictSet_ne (d : Dict) (a k : String) (v : Bucket) (h : ¬ a = k) :
    dictDel (dictSet d a v) k = dictSet (dictDel d k) a v := by
  unfold dictSet
  rw [dictHas_del_ne d a k h]
  by_cases hd : dictHas d a
  · rw [if_pos hd, if_pos hd]
    unfold dictDel
    rw [List.filter_map]
    have hpred : ∀ p ∈ d,
        ((fun q => decide (¬ q.1 = k)) ∘ fun q => if q.1 = a then (a, v) else q) p =
          decide (¬ p.1 = k) := by
      intro p _
      by_cases hp : p.1 = a
      · simp [hp, h]
      · simp [hp]
    rw [List.filter_congr hpred]
  · rw [if_neg hd, if_neg hd]
    unfold dictDel
    rw [List.filter_append]
    simp [h]

theorem dictDel_dictSet_self (d : Dict) (k : String) (v : Bucket) :
    dictDel (dictSet d k v) k = dictDel d k := by
  unfold dictSet
  by_cases hd : dictHas d k
  · rw [if_pos hd]
    unfold dictDel
    rw [List.filter_map]
    have hpred : ∀ p ∈ d,
        ((fun q => decide (¬ q.1 = k)) ∘ fun q => if q.1 = k then (k, v) else q) p =
          decide (¬ p.1 = k) := by
      intro p _
      by_cases hp : p.1 = k
      · simp [hp]
      · simp [hp]
    rw [List.filter_congr hpred]
    have hid : ∀ p ∈ d.filter (fun q => decide (¬ q.1 = k)),
        (fun q => if q.1 = k then (k, v) else q) p = id p := by
      intro p hp
      have hne : ¬ p.1 = k := by simpa using List.of_mem_filter hp
      simp [hne]
    rw [List.map_congr_left hid, List.map_id]
  · rw [if_neg hd]
    unfold dictDel
    rw [List.filter_append]
    simp

theorem dictDel_buildDict_fold (z : List (String × Bucket)) :
    ∀ (d : Dict) (k : String),
    dictDel (z.foldl (fun d p => dictSet d p.1 p.2) d) k =
      (z.filter (fun p => ¬ p.1 = k)).foldl (fun d p => dictSet d p.1 p.2)
        (dictDel d k) := by
  induction z with
  | nil => intro d k; rfl
  | cons p zr ih =>
    intro d k
    rw [List.foldl_cons, ih, List.filter_cons]
    by_cases hp : p.1 = k
    · rw [if_neg (by simp [hp])]
      have hset : dictSet d p.1 p.2 = dictSet d k p.2 := by rw [hp]
      rw [hset, dictDel_dictSet_self]
    · rw [if_pos (by simp [hp]), List.foldl_cons,
        dictDel_dictSet_ne d p.1 k p.2 hp]

theorem dictGet_append_single (d : Dict) (k : String) (v : Bucket)
    (h : dictGet d k = Option.none) : dictGet (d ++ [(k, v)]) k = some v := by
  unfold dictGet at *
  rw [List.find?_append, Option.map_eq_none'.mp h]
  simp [List.find?, Option.or]

theorem dictDel_id (d : Dict) (k : String) (h : dictGet d k = Option.none) :
    dictDel d k = d := by
  unfold dictDel
  rw [List.filter_eq_self]
  intro p hp
  have := List.find?_eq_none.mp (Option.map_eq_none'.mp h) p hp
  simpa using this

theorem buildDict_get_none (z : List (String × Bucket)) (k : String)
    (h : ∀ p ∈ z, ¬ p.1 = k) : dictGet (buildDict z) k = Option.none := by
  rw [buildDict_get]
  rw [List.find?_eq_none.mpr (fun p hp => by
    simpa using h p (List.mem_reverse.mp hp))]
  rfl

theorem Obj.eq_null_of_isNull (v : Obj) (h : v.isNull = true) : v = Obj.null := by
  cases v with
  | null => rfl
  | atom z => exact Bool.noConfusion h
  | dict entries => exact Bool.noConfusion h

theorem saveData_flat (k : String) (v : Obj) (p : ShardPath) (st : Store)
    (h : v.isDict = false ∨ k ∈ preservedDicts) :
    saveData k v p st = if v.isNull then st else writeStore st p v := by
  cases v with
  | null => rfl
  | atom z => rfl
  | dict entries =>
    rcases h with h | h
    · exact Bool.noConfusion h
    · unfold saveData
      rw [if_pos h]
      rfl

theorem writeStore_same (st : Store) (p : ShardPath) (v : Obj) :
    writeStore st p v p = some v := by
  simp [writeStore]

theorem writeStore_other (st : Store) (p : ShardPath) (v : Obj) (q : ShardPath)
    (h : ¬ q = p) : writeStore st p v q = st q := by
  simp [writeStore, h]

theorem pickle_lookup_other (stem : String) (attrs : Entity) (st : Store)
    (k : String)
    (hflat : ∀ p ∈ attrs, p.2.isDict = false ∨ p.1 ∈ preservedDicts)
    (hk : k ∉ attrs.map Prod.fst) :
    pickleEntity stem attrs st [stem, k] = st [stem, k] := by
  induction attrs generalizing st with
  | nil => rfl
  | cons a rest ih =>
    unfold pickleEntity at ih ⊢
    rw [List.foldl_cons]
    have hk' : k ∉ rest.map Prod.fst := by
      intro h
      exact hk (by simp [h])
    have hka : ¬ k = a.1 := by
      intro h
      exact hk (by simp [h])
    rw [ih (saveData a.1 a.2 [stem, a.1] st)
      (fun p hp => hflat p (List.mem_cons_of_mem _ hp)) hk']
    rw [saveData_flat a.1 a.2 _ st (hflat a (List.mem_cons_self _ _))]
    by_cases hn : a.2.isNull
    · rw [if_pos hn]
    · rw [if_neg hn, writeStore_other]
      simp [hka]

theorem pickle_lookup_mem (stem : String) (attrs : Entity) (st : Store)
    (k : String) (v : Obj)
    (hflat : ∀ p ∈ attrs, p.2.isDict = false ∨ p.1 ∈ preservedDicts)
    (hnodup : (attrs.map Prod.fst).Nodup)
    (hmem : (k, v) ∈ attrs) (hst : st [stem, k] = Option.none) :
    pickleEntity stem attrs st [stem, k] =
      if v.isNull then Option.none else some v := by
  induction attrs generalizing st with
  | nil => cases hmem
  | cons a rest ih =>
    unfold pickleEntity at ih ⊢
    rw [List.foldl_cons]
    rcases List.mem_cons.mp hmem with heq | hmem'
    · have ha1 : a.1 = k := by rw [← heq]
      have ha2 : a.2 = v := by rw [← heq]
      have hknotin : k ∉ rest.map Prod.fst := by
        have := (List.nodup_cons.mp hnodup).1
        rw [ha1] at this
        exact this
      have hother : pickleEntity stem rest (saveData a.1 a.2 [stem, a.1] st)
          [stem, k] = saveData a.1 a.2 [stem, a.1] st [stem, k] :=
        pickle_lookup_other stem rest _ k
          (fun p hp => hflat p (List.mem_cons_of_mem _ hp)) hknotin
      unfold pickleEntity at hother
      rw [hother, saveData_flat a.1 a.2 _ st (hflat a (List.mem_cons_self _ _)),
        ha1, ha2]
      by_cases hn : v.isNull
      · rw [if_pos hn, if_pos hn, hst]
      · rw [if_neg hn, if_neg hn, writeStore_same]
    · have hka : ¬ a.1 = k := by
        intro h
        have h1 := (List.nodup_cons.mp hnodup).1
        apply h1
        rw [h]
        exact List.mem_map_of_mem Prod.fst hmem'
      apply ih (saveData a.1 a.2 [stem, a.1] st)
        (fun p hp => hflat p (List.mem_cons_of_mem _ hp))
        (List.nodup_cons.mp hnodup).2 hmem'
      rw [saveData_flat a.1 a.2 _ st (hflat a (List.mem_cons_self _ _))]
      by_cases hn : a.2.isNull
      · rw [if_pos hn, hst]
      · rw [if_neg hn, writeStore_other _ _ _ _ (by
          intro h
          simp at h
          exact hka h.symm), hst]

theorem entGet_fresh_append (e : Entity) (k : String) (v : Obj)
    (h : entGet e k = Option.none) : entSet e k v = e ++ [(k, v)] := by
  have hfind : e.find? (fun p => p.1 = k) = Option.none :=
    Option.map_eq_none'.mp h
  have hany : e.any (fun p => p.1 = k) = false := by
    rw [List.any_eq_false]
    intro p hp
    simpa using List.find?_eq_none.mp hfind p hp
  unfold entSet
  rw [hany]
  simp

theorem entGet_append_none (e : Entity) (a : String × Obj) (k : String)
    (h0 : entGet e k = Option.none) (hne : ¬ a.1 = k) :
    entGet (e ++ [a]) k = Option.none := by
  unfold entGet at *
  rw [List.find?_append, Option.map_eq_none'.mp h0]
  simp [List.find?, hne, Option.or]

theorem addArgument_plain (st : Store) (stem : String) (e : Entity) (k : String)
    (hfresh : entGet e k = Option.none) :
    addArgument st stem e [k] = .ok (e ++ [(k, (st [stem, k]).getD Obj.null)]) := by
  unfold addArgument
  simp only [hfresh]
  exact congrArg Except.ok (entGet_fresh_append e k _ hfresh)

theorem readEntity_fold (st : Store) (stem : String) (attrs : Entity) (e0 : Entity)
    (hnodup : (attrs.map Prod.fst).Nodup)
    (hfresh : ∀ p ∈ attrs, entGet e0 p.1 = Option.none)
    (hst : ∀ p ∈ attrs, st [stem, p.1] =
      if p.2.isNull then Option.none else some p.2) :
    (attrs.map (fun p => [p.1])).foldlM
      (fun e segs => addArgument st stem e segs) e0 = .ok (e0 ++ attrs) := by
  induction attrs generalizing e0 with
  | nil =>
    rw [List.map_nil, List.foldlM_nil, List.append_nil]
    rfl
  | cons a rest ih =>
    rw [List.map_cons, List.foldlM_cons]
    have hobj : (st [stem, a.1]).getD Obj.null = a.2 := by
      rw [hst a (List.mem_cons_self _ _)]
      by_cases hn : a.2.isNull
      · rw [if_pos hn, Obj.eq_null_of_isNull a.2 hn]
        rfl
      · rw [if_neg hn]
        rfl
    rw [addArgument_plain st stem e0 a.1 (hfresh a (List.mem_cons_self _ _)), hobj]
    show (rest.map (fun p => [p.1])).foldlM
      (fun e segs => addArgument st stem e segs) (e0 ++ [(a.1, a.2)]) = _
    have hrest : (rest.map (fun p => [p.1])).foldlM
        (fun e segs => addArgument st stem e segs) (e0 ++ [(a.1, a.2)]) =
        .ok ((e0 ++ [(a.1, a.2)]) ++ rest) := by
      apply ih (e0 ++ [(a.1, a.2)]) (List.nodup_cons.mp hnodup).2
      · intro p hp
        apply entGet_append_none e0 (a.1, a.2) p.1 (hfresh p (List.mem_cons_of_mem _ hp))
        intro h
        exact (List.nodup_cons.mp hnodup).1 (by
          rw [show a.1 = p.1 from h]
          exact List.mem_map_of_mem Prod.fst hp)
      · intro p hp
        exact hst p (List.mem_cons_of_mem _ hp)
    rw [hrest]
    simp

/-- C10: Implicit shadowing of an origin literally named `scoring`: (1)
inside `interact()`'s multi-origin path the result is independent of the
raw evidence list attached to an origin labelled `"scoring"` — its list is
overwritten by the synthetic merged bucket (the pooled `&`-origin values,
see C2's theorem for the pooled content); (2) when no `&`-labelled origins
exist, the `scoring` origin's bucket is discarded entirely and the verdict
is computed exactly as if that origin and its evidence were absent; (3)
when two origins share the same label, the evidence dict keeps only the
last of their interaction lists. -/
theorem claim_C10_scoring_label_shadowed :
    (∀ (os₁ os₂ : List String) (is₁ is₂ : List Bucket) (b b' : Bucket),
      os₁.length = is₁.length →
      mergedBuckets (os₁ ++ "scoring" :: os₂) (is₁ ++ b :: is₂) =
        mergedBuckets (os₁ ++ "scoring" :: os₂) (is₁ ++ b' :: is₂) ∧
      (2 ≤ (os₁ ++ "scoring" :: os₂).length →
        interact (os₁ ++ "scoring" :: os₂) (is₁ ++ b :: is₂) =
          interact (os₁ ++ "scoring" :: os₂) (is₁ ++ b' :: is₂))) ∧
    (∀ (os₁ os₂ : List String) (is₁ is₂ : List Bucket) (b : Bucket),
      os₁.length = is₁.length → os₂.length = is₂.length →
      (∀ o ∈ os₁ ++ "scoring" :: os₂, o.contains '&' = false) →
      "scoring" ∉ os₁ → "scoring" ∉ os₂ →
      2 ≤ (os₁ ++ "scoring" :: os₂).length →
      interact (os₁ ++ "scoring" :: os₂) (is₁ ++ b :: is₂) =
        interact (os₁ ++ os₂) (is₁ ++ is₂)) ∧
    (∀ (origins : List String) (inters : List Bucket) (k : String),
      dictGet (buildDict (origins.zip inters)) k =
        ((origins.zip inters).reverse.find? (fun p => p.1 = k)).map Prod.snd) := by
  refine ⟨?_, ?_, fun origins inters k => buildDict_get _ _⟩
  · intro os₁ os₂ is₁ is₂ b b' hlen1
    have hzdecomp : ∀ c : Bucket,
        (os₁ ++ "scoring" :: os₂).zip (is₁ ++ c :: is₂) =
          (os₁.zip is₁) ++ ("scoring", c) :: (os₂.zip is₂) := by
      intro c
      rw [List.zip_append hlen1]
      rfl
    have hmaskz :
        maskVal "scoring" ((os₁ ++ "scoring" :: os₂).zip (is₁ ++ b :: is₂)) =
        maskVal "scoring" ((os₁ ++ "scoring" :: os₂).zip (is₁ ++ b' :: is₂)) := by
      rw [hzdecomp b, hzdecomp b']
      unfold maskVal
      rw [List.map_append, List.map_append, List.map_cons, List.map_cons]
      simp
    have hmaskd :
        maskVal "scoring"
          (buildDict ((os₁ ++ "scoring" :: os₂).zip (is₁ ++ b :: is₂))) =
        maskVal "scoring"
          (buildDict ((os₁ ++ "scoring" :: os₂).zip (is₁ ++ b' :: is₂))) :=
      buildDict_fold_mask _ _ [] [] hmaskz rfl
    have hkeys :
        (buildDict ((os₁ ++ "scoring" :: os₂).zip (is₁ ++ b :: is₂))).map Prod.fst =
        (buildDict ((os₁ ++ "scoring" :: os₂).zip (is₁ ++ b' :: is₂))).map Prod.fst := by
      have := congrArg (List.map Prod.fst) hmaskd
      rwa [keys_maskVal, keys_maskVal] at this
    have hd1 :
        dictSet (buildDict ((os₁ ++ "scoring" :: os₂).zip (is₁ ++ b :: is₂)))
          "scoring" [] =
        dictSet (buildDict ((os₁ ++ "scoring" :: os₂).zip (is₁ ++ b' :: is₂)))
          "scoring" [] := by
      rw [dictSet_nil_val, dictSet_nil_val, dictHas_congr _ _ _ hkeys, hmaskd]
    have hmb : mergedBuckets (os₁ ++ "scoring" :: os₂) (is₁ ++ b :: is₂) =
        mergedBuckets (os₁ ++ "scoring" :: os₂) (is₁ ++ b' :: is₂) := by
      show (match mergeLoop ((os₁ ++ "scoring" :: os₂).filter
            (fun o => o.contains '&'))
          (dictSet (buildDict ((os₁ ++ "scoring" :: os₂).zip (is₁ ++ b :: is₂)))
            "scoring" []) with
        | .error e => (.error e : Except String Dict)
        | .ok d2 => .ok (if dictGet d2 "scoring" = some [] then dictDel d2 "scoring"
            else d2)) =
        (match mergeLoop ((os₁ ++ "scoring" :: os₂).filter
            (fun o => o.contains '&'))
          (dictSet (buildDict ((os₁ ++ "scoring" :: os₂).zip (is₁ ++ b' :: is₂)))
            "scoring" []) with
        | .error e => (.error e : Except String Dict)
        | .ok d2 => .ok (if dictGet d2 "scoring" = some [] then dictDel d2 "scoring"
            else d2))
      rw [hd1]
    refine ⟨hmb, fun h2 => ?_⟩
    have hOlen : (os₁ ++ "scoring" :: os₂).length =
        os₁.length + (os₂.length + 1) := by
      simp [List.length_append]
    have hne1 : ¬ (os₁ ++ "scoring" :: os₂).length = 1 := by omega
    unfold interact
    rw [if_neg hne1, if_neg hne1, hmb]
  · intro os₁ os₂ is₁ is₂ b hlen1 hlen2 hnoamp hs1 hs2 h2
    have hzdecomp : (os₁ ++ "scoring" :: os₂).zip (is₁ ++ b :: is₂) =
        (os₁.zip is₁) ++ ("scoring", b) :: (os₂.zip is₂) := by
      rw [List.zip_append hlen1]
      rfl
    have hz'decomp : (os₁ ++ os₂).zip (is₁ ++ is₂) =
        (os₁.zip is₁) ++ (os₂.zip is₂) := List.zip_append hlen1
    have hAkeys : ∀ p ∈ os₁.zip is₁, ¬ p.1 = "scoring" := by
      intro p hp hpk
      apply hs1
      rw [← hpk]
      exact (List.of_mem_zip (show (p.1, p.2) ∈ os₁.zip is₁ by simpa using hp)).1
    have hBkeys : ∀ p ∈ os₂.zip is₂, ¬ p.1 = "scoring" := by
      intro p hp hpk
      apply hs2
      rw [← hpk]
      exact (List.of_mem_zip (show (p.1, p.2) ∈ os₂.zip is₂ by simpa using hp)).1
    have hABkeys : ∀ p ∈ (os₁.zip is₁) ++ (os₂.zip is₂), ¬ p.1 = "scoring" := by
      intro p hp
      rcases List.mem_append.mp hp with h' | h'
      · exact hAkeys p h'
      · exact hBkeys p h'
    have hfilters : ((os₁.zip is₁) ++ ("scoring", b) :: (os₂.zip is₂)).filter
        (fun p => ¬ p.1 = "scoring") = (os₁.zip is₁) ++ (os₂.zip is₂) := by
      rw [List.filter_append, List.filter_cons]
      rw [if_neg (by simp)]
      rw [List.filter_eq_self.mpr (fun p hp => by simpa using hAkeys p hp),
        List.filter_eq_self.mpr (fun p hp => by simpa using hBkeys p hp)]
    have hsl : (os₁ ++ "scoring" :: os₂).filter (fun o => o.contains '&') = [] :=
      List.filter_eq_nil_iff.mpr (fun o ho => by simp [hnoamp o ho])
    have hsl' : (os₁ ++ os₂).filter (fun o => o.contains '&') = [] := by
      apply List.filter_eq_nil_iff.mpr
      intro o ho
      have hoO : o ∈ os₁ ++ "scoring" :: os₂ := by
        rcases List.mem_append.mp ho with h' | h'
        · exact List.mem_append.mpr (Or.inl h')
        · exact List.mem_append.mpr (Or.inr (List.mem_cons_of_mem _ h'))
      simp [hnoamp o hoO]
    have hdelL : dictDel (buildDict ((os₁ ++ "scoring" :: os₂).zip
        (is₁ ++ b :: is₂))) "scoring" =
        buildDict ((os₁.zip is₁) ++ (os₂.zip is₂)) := by
      have hfold := dictDel_buildDict_fold
        ((os₁ ++ "scoring" :: os₂).zip (is₁ ++ b :: is₂)) [] "scoring"
      unfold buildDict
      rw [hfold, hzdecomp, hfilters]
      rfl
    have hmbL : mergedBuckets (os₁ ++ "scoring" :: os₂) (is₁ ++ b :: is₂) =
        .ok (buildDict ((os₁.zip is₁) ++ (os₂.zip is₂))) := by
      show (match mergeLoop ((os₁ ++ "scoring" :: os₂).filter
            (fun o => o.contains '&'))
          (dictSet (buildDict ((os₁ ++ "scoring" :: os₂).zip (is₁ ++ b :: is₂)))
            "scoring" []) with
        | .error e => (.error e : Except String Dict)
        | .ok d2 => .ok (if dictGet d2 "scoring" = some [] then dictDel d2 "scoring"
            else d2)) = _
      rw [hsl]
      show Except.ok (if dictGet (dictSet (buildDict
          ((os₁ ++ "scoring" :: os₂).zip (is₁ ++ b :: is₂))) "scoring" [])
          "scoring" = some [] then
        dictDel (dictSet (buildDict ((os₁ ++ "scoring" :: os₂).zip
          (is₁ ++ b :: is₂))) "scoring" []) "scoring"
        else dictSet (buildDict ((os₁ ++ "scoring" :: os₂).zip
          (is₁ ++ b :: is₂))) "scoring" []) = _
      rw [dictGet_set_self, if_pos rfl, dictDel_dictSet_self, hdelL]
    have hd0'none : dictGet (buildDict ((os₁.zip is₁) ++ (os₂.zip is₂)))
        "scoring" = Option.none := buildDict_get_none _ _ hABkeys
    have hmbR : mergedBuckets (os₁ ++ os₂) (is₁ ++ is₂) =
        .ok (buildDict ((os₁.zip is₁) ++ (os₂.zip is₂))) := by
      show (match mergeLoop ((os₁ ++ os₂).filter (fun o => o.contains '&'))
          (dictSet (buildDict ((os₁ ++ os₂).zip (is₁ ++ is₂))) "scoring" []) with
        | .error e => (.error e : Except String Dict)
        | .ok d2 => .ok (if dictGet d2 "scoring" = some [] then dictDel d2 "scoring"
            else d2)) = _
      rw [hsl']
      show Except.ok (if dictGet (dictSet (buildDict
          ((os₁ ++ os₂).zip (is₁ ++ is₂))) "scoring" []) "scoring" = some [] then
        dictDel (dictSet (buildDict ((os₁ ++ os₂).zip (is₁ ++ is₂)))
          "scoring" []) "scoring"
        else dictSet (buildDict ((os₁ ++ os₂).zip (is₁ ++ is₂))) "scoring" []) = _
      rw [dictGet_set_self, if_pos rfl, dictDel_dictSet_self, hz'decomp,
        dictDel_id _ _ hd0'none]
    have hOlen : (os₁ ++ "scoring" :: os₂).length =
        os₁.length + (os₂.length + 1) := by
      simp [List.length_append]
    have hO'len : (os₁ ++ os₂).length = os₁.length + os₂.length := by
      simp [List.length_append]
    by_cases hone : (os₁ ++ os₂).length = 1
    · obtain ⟨o, ho⟩ := List.length_eq_one.mp hone
      have hilen : (is₁ ++ is₂).length = 1 := by
        rw [List.length_append, ← hlen1, ← hlen2]
        omega
      obtain ⟨i, hi⟩ := List.length_eq_one.mp hilen
      have hAB : (os₁.zip is₁) ++ (os₂.zip is₂) = [(o, i)] := by
        rw [← hz'decomp, ho, hi]
        rfl
      have hoNotSc : ¬ o = "scoring" := by
        intro hsc
        have hoMem : o ∈ os₁ ++ os₂ := by
          rw [ho]
          exact List.mem_cons_self _ _
        rcases List.mem_append.mp hoMem with h' | h'
        · exact hs1 (hsc ▸ h')
        · exact hs2 (hsc ▸ h')
      unfold interact
      rw [if_neg (show ¬ (os₁ ++ "scoring" :: os₂).length = 1 by omega),
        if_pos hone, hmbL, hAB, hi]
      show (if ([(o, i)] : Dict).length = 1 ∧ dictHas [(o, i)] "scoring" = true
          then score_single_origin_interactions
            ((dictGet [(o, i)] "scoring").getD [])
          else match mapScores [(o, i)] with
            | .error e => .error e
            | .ok scored => resolveMulti scored) =
        score_single_origin_interactions i
      rw [if_neg (by
        rintro ⟨_, hh⟩
        simp [dictHas, hoNotSc] at hh)]
      cases hsi : score_single_origin_interactions i with
      | error e =>
        have hms : mapScores [(o, i)] = .error e := by
          show (match score_single_origin_interactions i, mapScores ([] : Dict) with
            | .ok w, .ok rest => Except.ok (w :: rest)
            | .error e, _ => (.error e : Except String (List Verdict))
            | _, .error e => .error e) = .error e
          rw [hsi]
          rfl
        rw [hms]
      | ok w =>
        have hms : mapScores [(o, i)] = .ok [w] := by
          show (match score_single_origin_interactions i, mapScores ([] : Dict) with
            | .ok w, .ok rest => Except.ok (w :: rest)
            | .error e, _ => (.error e : Except String (List Verdict))
            | _, .error e => .error e) = .ok [w]
          rw [hsi]
          rfl
        rw [hms]
        show resolveMulti [w] = Except.ok w
        simp [resolveMulti]
    · unfold interact
      rw [if_neg (show ¬ (os₁ ++ "scoring" :: os₂).length = 1 by omega),
        if_neg hone, hmbL, hmbR]

/-- Witness for C10 at concrete inputs: a `scoring`-labelled origin's
evidence `[1]` does not influence the verdict, and removing that origin
gives the same verdict; duplicate labels keep the last list. -/
theorem claim_C10_witness :
    interact ["scoring", "B"] [[.num 1], [.num 0]] =
      interact ["scoring", "B"] [[.num 0, .num 0], [.num 0]] ∧
    interact ["scoring", "B"] [[.num 1], [.num 0]] = interact ["B"] [[.num 0]] ∧
    dictGet (buildDict (["A", "A"].zip [[.num 1], [.num 0]])) "A" =
      some [.num 0] := by
  have h1 := ((claim_C10_scoring_label_shadowed.1 [] ["B"] []
    [[RawVal.num 0]] [.num 1] [.num 0, .num 0]) rfl).2 (by decide)
  have h2 := claim_C10_scoring_label_shadowed.2.1 [] ["B"] [] [[RawVal.num 0]]
    [.num 1] rfl rfl
    (by
      intro o ho
      rcases List.mem_cons.mp ho with rfl | ho'
      · with_unfolding_all rfl
      rcases List.mem_singleton.mp ho' with rfl
      · with_unfolding_all rfl)
    (by simp) (by simp) (by decide)
  have h3 := claim_C10_scoring_label_shadowed.2.2 ["A", "A"]
    [[RawVal.num 1], [.num 0]] "A"
  refine ⟨by simpa using h1, by simpa using h2, ?_⟩
  rw [h3]
  with_unfolding_all rfl

/-- C5 counterexample: The claim says writing an entity's set attributes
and reading them back under the same requested attribute names reproduces
bit-identical values.  For the dict-valued attribute `a = {x: 1}`,
`pickle()` decomposes the value into the shard `<stem>.a.x` and writes no
shard named `<stem>.a`; re-requesting the same name `"a"` therefore finds
no file and reconstructs `a = None`, not `{x: 1}`. -/
theorem claim_C5_counterexample :
    readEntity (pickleEntity "s" [("a", Obj.dict [("x", Obj.atom 1)])] emptyStore)
      "s" [["a"]] = .ok [("a", Obj.null)] ∧
    Obj.null ≠ Obj.dict [("x", Obj.atom 1)] :=
  ⟨rfl, fun h => Obj.noConfusion h⟩

/-- C5 (amended): Round-trip persistence holds for every entity whose set
attributes have pairwise distinct names and non-dict values (`None`
included) — or dict values under a name in the `preserved_dicts` exemption
list, which are pickled whole: writing with `pickle()` and reading the
same attribute names back reproduces the attribute list bit-identically.
Decomposed dict-valued attributes are not reproduced under their own name
(see the counterexample). -/
theorem claim_C5_amended_roundtrip (stem : String) (attrs : Entity)
    (hnodup : (attrs.map Prod.fst).Nodup)
    (hflat : ∀ p ∈ attrs, p.2.isDict = false ∨ p.1 ∈ preservedDicts) :
    readEntity (pickleEntity stem attrs emptyStore) stem
      (attrs.map (fun p => [p.1])) = .ok attrs := by
  unfold readEntity
  have h := readEntity_fold (pickleEntity stem attrs emptyStore) stem attrs []
    hnodup (fun p _ => rfl) ?_
  · simpa using h
  · intro p hp
    exact pickle_lookup_mem stem attrs emptyStore p.1 p.2 hflat hnodup
      (by simpa using hp) rfl

/-- Witness for C5 (amended): an entity with an atom attribute, a `None`
attribute and a whole-pickled `interface_features` dict round-trips. -/
theorem claim_C5_witness :
    readEntity
      (pickleEntity "s"
        [("a", Obj.atom 7), ("b", Obj.null),
         ("interface_features", Obj.dict [("f", Obj.atom 9)])] emptyStore)
      "s" [["a"], ["b"], ["interface_features"]] =
      .ok [("a", Obj.atom 7), ("b", Obj.null),
           ("interface_features", Obj.dict [("f", Obj.atom 9)])] := by
  have h := claim_C5_amended_roundtrip "s"
    [("a", Obj.atom 7), ("b", Obj.null),
     ("interface_features", Obj.dict [("f", Obj.atom 9)])]
    (by decide)
    (by
      intro p hp
      rcases List.mem_cons.mp hp with rfl | hp'
      · exact Or.inl rfl
      rcases List.mem_cons.mp hp' with rfl | hp''
      · exact Or.inl rfl
      rcases List.mem_singleton.mp hp'' with rfl
      · exact Or.inr (by decide))
  simpa using h

/-- C9: Order-sensitive PPI identity: the PPI entity key is the
concatenation of the two Protein keys in construction order with `'='`
between them, and for Proteins with distinct keys (md5 digests, hence of
equal length) the keys of the PPIs `(A, B)` and `(B, A)` differ. -/
theorem claim_C9_order_sensitive_identity (hA hB : String)
    (hlen : hA.length = hB.length) (hne : hA ≠ hB) :
    (ppiHash hA hB).data = hA.data ++ '=' :: hB.data ∧
    ppiHash hA hB ≠ ppiHash hB hA := by
  have hdata : ∀ s t : String, (ppiHash s t).data = s.data ++ '=' :: t.data := by
    intro s t
    show (s ++ "=" ++ t).data = _
    simp [String.data_append]
  refine ⟨hdata hA hB, fun heq => hne ?_⟩
  have h2 : hA.data ++ '=' :: hB.data = hB.data ++ '=' :: hA.data := by
    rw [← hdata hA hB, ← hdata hB hA, heq]
  have hlen' : hA.data.length = hB.data.length := hlen
  have := (List.append_inj h2 hlen').1
  exact String.ext this

/-- Witness for C9 at concrete distinct equal-length keys. -/
theorem claim_C9_witness :
    ("ab".length = "ba".length) ∧ ("ab" : String) ≠ "ba" ∧
    ppiHash "ab" "ba" ≠ ppiHash "ba" "ab" :=
  ⟨by decide, by decide,
    (claim_C9_order_sensitive_identity "ab" "ba" (by decide) (by decide)).2⟩

/-- C3: Two-value rule of `scoreOrigin`: when discarding and NC-mapping
leave exactly two values `[a, b]`, the score is Positive if either is 1,
else Negative if either is 0, else (both 0.5) Undetermined, and any other
combination raises (`ValueError`); `[[1, "NC"]]` scores 1 and
`[[0, "NC"]]` scores 0. -/
theorem claim_C3_two_value_rule (vs : List RawVal) (a b : ℚ)
    (h : processedValues vs = [a, b]) :
    ((a = 1 ∨ b = 1) → score_single_origin_interactions vs = .ok (.val 1)) ∧
    (¬(a = 1 ∨ b = 1) → (a = 0 ∨ b = 0) →
      score_single_origin_interactions vs = .ok (.val 0)) ∧
    (a = 1/2 ∧ b = 1/2 → score_single_origin_interactions vs = .ok .und) ∧
    (¬(a = 1 ∨ b = 1) → ¬(a = 0 ∨ b = 0) → ¬(a = 1/2 ∧ b = 1/2) →
      score_single_origin_interactions vs = .error "Unexpected values") ∧
    score_single_origin_interactions [.num 1, .NC] = .ok (.val 1) ∧
    score_single_origin_interactions [.num 0, .NC] = .ok (.val 0) := by
  have hs : score_single_origin_interactions vs =
      (if a = 1 ∨ b = 1 then .ok (.val 1)
       else if a = 0 ∨ b = 0 then .ok (.val 0)
       else if a = 1/2 ∧ b = 1/2 then .ok .und
       else .error "Unexpected values") := by
    unfold score_single_origin_interactions
    rw [h]
  refine ⟨?_, ?_, ?_, ?_, ?_, ?_⟩
  · intro h1; rw [hs, if_pos h1]
  · intro h1 h0; rw [hs, if_neg h1, if_pos h0]
  · rintro ⟨rfl, rfl⟩
    rw [hs, if_neg (by norm_num), if_neg (by norm_num), if_pos ⟨rfl, rfl⟩]
  · intro h1 h0 hu; rw [hs, if_neg h1, if_neg h0, if_neg hu]
  · with_unfolding_all rfl
  · with_unfolding_all rfl

/-- Witness for C3 at `[[1, "NC"]]`, i.e. `a = 1`, `b = 1/2`. -/
theorem claim_C3_witness :
    score_single_origin_interactions [.num 1, .NC] = .ok (.val 1) :=
  (claim_C3_two_value_rule [.num 1, .NC] 1 (1/2)
    (by with_unfolding_all rfl)).1 (Or.inl rfl)

/-- C4: Mean-threshold rule of `scoreOrigin`: with three or more
remaining values in `{0, 0.5, 1}`, the score is Positive iff the mean is
strictly above 3/5, Negative iff strictly below 2/5, Undetermined
otherwise; the boundary list `[1,1,0,0,0]` has mean exactly 2/5 and scores
`'?'`. -/
theorem claim_C4_mean_threshold (vs : List RawVal) (a b c : ℚ) (t : List ℚ)
    (h : processedValues vs = a :: b :: c :: t)
    (hdom : ∀ q ∈ processedValues vs, q = 0 ∨ q = 1/2 ∨ q = 1) :
    (score_single_origin_interactions vs = .ok (.val 1) ↔
      3/5 < (processedValues vs).sum / ((processedValues vs).length : ℚ)) ∧
    (score_single_origin_interactions vs = .ok (.val 0) ↔
      (processedValues vs).sum / ((processedValues vs).length : ℚ) < 2/5) ∧
    (score_single_origin_interactions vs = .ok .und ↔
      (2/5 ≤ (processedValues vs).sum / ((processedValues vs).length : ℚ) ∧
       (processedValues vs).sum / ((processedValues vs).length : ℚ) ≤ 3/5)) ∧
    processedValues [.num 1, .num 1, .num 0, .num 0, .num 0] = [1, 1, 0, 0, 0] ∧
    ([(1 : ℚ), 1, 0, 0, 0].sum / (([(1 : ℚ), 1, 0, 0, 0].length : ℚ)) = 2/5) ∧
    score_single_origin_interactions [.num 1, .num 1, .num 0, .num 0, .num 0] =
      .ok .und := by
  have hs : score_single_origin_interactions vs =
      (if 3/5 < (a :: b :: c :: t).sum / (((a :: b :: c :: t).length : ℚ))
       then .ok (.val 1)
       else if (a :: b :: c :: t).sum / (((a :: b :: c :: t).length : ℚ)) < 2/5
       then .ok (.val 0)
       else .ok .und) := by
    unfold score_single_origin_interactions
    rw [h]
  rw [h]
  refine ⟨?_, ?_, ?_, by with_unfolding_all rfl, by norm_num, by with_unfolding_all rfl⟩
  · rw [hs]
    split_ifs with h1 h2 <;> simp_all <;> linarith
  · rw [hs]
    split_ifs with h1 h2 <;> simp_all <;> linarith
  · rw [hs]
    split_ifs with h1 h2 <;> simp_all <;> constructor <;> intro <;> linarith

/-- C8 counterexample: The claim says a length mismatch between `origin`
and `interaction` makes `interact()` raise a fatal consistency error.  At
`origin=["A","B"]`, `interaction=[[1],[1],[0]]` (lengths 2 and 3) the code
instead returns the verdict 1 computed from the zipped prefix, raising
nothing. -/
theorem claim_C8_counterexample :
    interact ["A", "B"] [[.num 1], [.num 1], [.num 0]] = .ok (.val 1) ∧
    ∀ e, interact ["A", "B"] [[.num 1], [.num 1], [.num 0]] ≠ .error e := by
  have h : interact ["A", "B"] [[.num 1], [.num 1], [.num 0]] = .ok (.val 1) := by
    with_unfolding_all rfl
  exact ⟨h, fun e he => by rw [h] at he; exact Except.noConfusion he⟩

/-- C8 (amended): `interact()` performs no length validation: the evidence
pairs are formed by `zip`, so interaction lists beyond `len(origin)` are
silently ignored and the verdict is computed from the paired prefix (no
`ConsistencyError` exists in the code). -/
theorem claim_C8_amended_silent_truncation (origins : List String)
    (inters : List Bucket) :
    interact origins inters = interact origins (inters.take origins.length) := by
  have hzip : ∀ (os : List String) (is : List Bucket),
      os.zip is = os.zip (is.take os.length) := by
    intro os
    induction os with
    | nil => intro is; simp
    | cons o os ih =>
      intro is
      cases is with
      | nil => simp
      | cons i is => simp [ih is]
  unfold interact
  by_cases h1 : origins.length = 1
  · rw [if_pos h1, if_pos h1]
    cases inters with
    | nil => simp
    | cons v vs => rw [h1]; rfl
  · rw [if_neg h1, if_neg h1]
    unfold mergedBuckets
    rw [hzip origins inters]

/-- C7 counterexample: The claim says that when the requested shard is
absent the attribute is "simply not set" on the reconstructed entity.  The
code instead sets the attribute, with value `None`: reading `"a"` from an
empty store yields an entity whose attribute `"a"` exists and holds
`None`. -/
theorem claim_C7_counterexample :
    addArgument emptyStore "s" [] ["a"] = .ok [("a", Obj.null)] ∧
    entGet [("a", Obj.null)] "a" = some Obj.null :=
  ⟨rfl, rfl⟩

/-- C7 (amended): Silent absence on read: loading an absent shard raises no
error, but the attribute *is* set on the entity — to `None` for a plain
request, and to a nested dict whose leaf is `None` for a dotted request. -/
theorem claim_C7_amended_absent_shard (st : Store) (stem : String) (e : Entity)
    (arg : String) (subargs : List String)
    (habs : st (stem :: arg :: subargs) = Option.none)
    (hfresh : entGet e arg = Option.none) :
    (subargs = [] →
      addArgument st stem e (arg :: subargs) = .ok (e ++ [(arg, Obj.null)])) ∧
    (∀ s rest, subargs = s :: rest →
      addArgument st stem e (arg :: subargs) =
        .ok (e ++ [(arg, Obj.dict [(s, buildNested rest Obj.null)])])) := by
  have hset : ∀ v : Obj, entSet e arg v = e ++ [(arg, v)] := by
    intro v
    have hfind : e.find? (fun p => p.1 = arg) = Option.none :=
      Option.map_eq_none'.mp hfresh
    have hany : e.any (fun p => p.1 = arg) = false := by
      rw [List.any_eq_false]
      intro p hp
      simpa using List.find?_eq_none.mp hfind p hp
    unfold entSet
    rw [hany]
    simp
  constructor
  · rintro rfl
    unfold addArgument
    simp only [habs, hfresh, Option.getD_none]
    exact congrArg Except.ok (hset Obj.null)
  · rintro s rest rfl
    unfold addArgument
    simp only [habs, hfresh, Option.getD_none]
    exact congrArg Except.ok (hset (Obj.dict [(s, buildNested rest Obj.null)]))

/-- Witness for C7 (amended): reading plain `"a"` and dotted `"b.c"` from
the empty store on a fresh entity. -/
theorem claim_C7_witness :
    addArgument emptyStore "s" [] ["a"] = .ok [("a", Obj.null)] ∧
    addArgument emptyStore "s" [] ["b", "c"] =
      .ok [("b", Obj.dict [("c", Obj.null)])] :=
  ⟨(claim_C7_amended_absent_shard emptyStore "s" [] "a" [] rfl rfl).1 rfl,
   by
    have h := (claim_C7_amended_absent_shard emptyStore "s" [] "b" ["c"] rfl
      rfl).2 "c" [] rfl
    simpa using h⟩

/-- C6: Merge-on-write of nested attributes: writing `{a: {x: v}}` and
then `{a: {y: w}}` to the same (decomposed, i.e. non-exempt) attribute of
the same entity leaves both leaf shards in the store, so a subsequent read
of the attribute yields `{x: v, y: w}`; and a key present in both writes
is overwritten by the second value. -/
theorem claim_C6_merge_on_write (stem aname x y : String) (v w : ℤ)
    (hpre : aname ∉ preservedDicts) (hxy : x ≠ y) :
    readEntity (pickleEntity stem [(aname, Obj.dict [(y, Obj.atom w)])]
        (pickleEntity stem [(aname, Obj.dict [(x, Obj.atom v)])] emptyStore))
      stem [[aname, x], [aname, y]]
      = .ok [(aname, Obj.dict [(x, Obj.atom v), (y, Obj.atom w)])] ∧
    readEntity (pickleEntity stem [(aname, Obj.dict [(x, Obj.atom w)])]
        (pickleEntity stem [(aname, Obj.dict [(x, Obj.atom v)])] emptyStore))
      stem [[aname, x]]
      = .ok [(aname, Obj.dict [(x, Obj.atom w)])] := by
  have hsave : ∀ (k : String) (z : ℤ) (st : Store),
      pickleEntity stem [(aname, Obj.dict [(k, Obj.atom z)])] st =
        writeStore st [stem, aname, k] (Obj.atom z) := by
    intro k z st
    simp [pickleEntity, saveData, saveEntries, hpre]
  rw [hsave, hsave, hsave]
  constructor
  · have h1 : addArgument
        (writeStore (writeStore emptyStore [stem, aname, x] (Obj.atom v))
          [stem, aname, y] (Obj.atom w)) stem [] [aname, x] =
        .ok [(aname, Obj.dict [(x, Obj.atom v)])] := by
      unfold addArgument
      simp [writeStore, entGet, entSet, buildNested, hxy]
    have h2 : addArgument
        (writeStore (writeStore emptyStore [stem, aname, x] (Obj.atom v))
          [stem, aname, y] (Obj.atom w)) stem
        [(aname, Obj.dict [(x, Obj.atom v)])] [aname, y] =
        .ok [(aname, Obj.dict [(x, Obj.atom v), (y, Obj.atom w)])] := by
      unfold addArgument
      simp [writeStore, entGet, entSet, buildNested, hxy]
    rw [readEntity, List.foldlM_cons, h1]
    show addArgument _ _ _ _ >>= _ = _
    rw [h2]
    rfl
  · have h1 : addArgument (writeStore
        (writeStore emptyStore [stem, aname, x] (Obj.atom v))
        [stem, aname, x] (Obj.atom w)) stem [] [aname, x] =
        .ok [(aname, Obj.dict [(x, Obj.atom w)])] := by
      unfold addArgument
      simp [writeStore, entGet, entSet, buildNested]
    rw [readEntity, List.foldlM_cons, h1]
    rfl

/-- Witness for C6 at `stem = "s"`, attribute `"a"`, keys `"x" ≠ "y"`,
values 1 and 2. -/
theorem claim_C6_witness :
    readEntity (pickleEntity "s" [("a", Obj.dict [("y", Obj.atom 2)])]
        (pickleEntity "s" [("a", Obj.dict [("x", Obj.atom 1)])] emptyStore))
      "s" [["a", "x"], ["a", "y"]]
      = .ok [("a", Obj.dict [("x", Obj.atom 1), ("y", Obj.atom 2)])] :=
  (claim_C6_merge_on_write "s" "a" "x" "y" 1 2 (by decide) (by decide)).1

/-- Witness for C4 at the boundary list `[1,1,0,0,0]` (mean exactly 2/5). -/
theorem claim_C4_witness :
    score_single_origin_interactions [.num 1, .num 1, .num 0, .num 0, .num 0] =
      .ok .und := by
  have hp : processedValues [RawVal.num 1, .num 1, .num 0, .num 0, .num 0] =
      [1, 1, 0, 0, 0] := by with_unfolding_all rfl
  exact ((claim_C4_mean_threshold _ 1 1 0 [0, 0] hp
    (by rw [hp]; intro q hq; fin_cases hq <;> norm_num)).2.2.1).mpr
    (by rw [hp]; norm_num)

end ML4MIKC
